import Mathlib

/-!
Shallow embedding of the QLCAutoShow show compiler
(`src/utils/to_xml/shows_to_xml.py`) and verification of the specification's
claims about it.

Modelling conventions:
* Python floats are idealized as exact rational (`ℚ`) respectively real (`ℝ`)
  arithmetic; the spec itself describes the timing quantities as real-valued.
* Python `int(x)` on a float truncates toward zero; this is `pyTruncQ` /
  `pyTruncR` below.
* Python `str(n)` on an `int` produces the decimal representation; this is
  `intStr` below, a structurally recursive definition with the same output
  (minus sign followed by decimal digits, `"0"` for zero).
* `xml.etree.ElementTree` elements are modelled by the inductive tree `Elem`;
  in-place `SubElement` appends become functional list appends, and the final
  value of an element models its fully mutated state.
* Files are modelled by their parsed contents; a missing file is an `Option`
  that is `none`.  Pandas `read_csv` turns empty cells and the token `"None"`
  (both are default NA values) into NaN; `readCategory` models that step, with
  `none` playing the role of NaN.
* Python exceptions become `Except.error` / explicit error fields; the partial
  tree mutations performed before an exception is raised are preserved, as
  they are in the source.
-/

namespace QLCAutoShow

/-! # Definitions -/

/-! ## Decimal representation of integers (Python `str` on `int`) -/

/-- The character for a decimal digit `n < 10`. -/
def digitCharOf (n : ℕ) : Char :=
  if n = 0 then '0' else if n = 1 then '1' else if n = 2 then '2' else if n = 3 then '3'
  else if n = 4 then '4' else if n = 5 then '5' else if n = 6 then '6' else if n = 7 then '7'
  else if n = 8 then '8' else '9'

/-- Decimal digit characters of `n`, most significant first.  `fuel` bounds the
recursion; any `fuel > n` is enough. -/
def decDigits : ℕ → ℕ → List Char
  | 0, _ => []
  | fuel + 1, n =>
    if n < 10 then [digitCharOf n]
    else decDigits fuel (n / 10) ++ [digitCharOf (n % 10)]

/-- Decimal string of an integer: the output of Python `str` on an `int`. -/
def intStr (n : ℤ) : String :=
  if n < 0 then "-" ++ String.mk (decDigits ((-n).toNat + 1) (-n).toNat)
  else String.mk (decDigits (n.toNat + 1) n.toNat)

/-- Numeric value of one digit character (used only to prove that `intStr` is
injective). -/
def digitVal (c : Char) : ℕ :=
  if c = '0' then 0 else if c = '1' then 1 else if c = '2' then 2 else if c = '3' then 3
  else if c = '4' then 4 else if c = '5' then 5 else if c = '6' then 6 else if c = '7' then 7
  else if c = '8' then 8 else 9

/-- Numeric value recovered from a digit string (used only to prove that
`intStr` is injective). -/
def decVal (l : List Char) : ℕ :=
  l.foldl (fun acc c => acc * 10 + digitVal c) 0

/-! ## Character-level string helpers (Python `str.split` and `int(str)`) -/

/-- Splitting a character list at every occurrence of the separator `c`,
keeping empty pieces, exactly like Python `str.split` with an explicit
separator. -/
def splitCharAux (c : Char) : List Char → List Char → List (List Char)
  | [], acc => [acc.reverse]
  | x :: xs, acc =>
    if x = c then acc.reverse :: splitCharAux c xs []
    else splitCharAux c xs (x :: acc)

/-- Python `s.split(sep)` for a one-character separator. -/
def splitChar (c : Char) (s : String) : List String :=
  (splitCharAux c s.data []).map String.mk

/-- Parses a run of decimal digits; `none` on any other character.  The
accumulator carries the value parsed so far. -/
def parseDigitsAux : List Char → ℕ → Option ℕ
  | [], acc => some acc
  | c :: cs, acc =>
    if c.isDigit then parseDigitsAux cs (acc * 10 + (c.toNat - '0'.toNat))
    else none

/-- Python `int(s)` on a string: an optional minus sign followed by at least
one decimal digit (surrounding whitespace, underscores and a plus sign, which
Python also accepts, do not occur in the inputs under study). -/
def pyParseInt (s : String) : Option ℤ :=
  match s.data with
  | [] => none
  | '-' :: cs =>
    match cs with
    | [] => none
    | _ => (parseDigitsAux cs 0).map (fun n => -(n : ℤ))
  | cs => (parseDigitsAux cs 0).map (fun n => (n : ℤ))

/-- Python `str.upper`. -/
def upperStr (s : String) : String := String.mk (s.data.map Char.toUpper)

/-! ## The timing engine: `calculate_start_time` (shows_to_xml.py lines 9-42) -/

/-- Python `int(x)` on a rational value: truncation toward zero. -/
def pyTruncQ (q : ℚ) : ℤ := if 0 ≤ q then ⌊q⌋ else ⌈q⌉

/-- Python `int(x)` on a real value: truncation toward zero. -/
noncomputable def pyTruncR (x : ℝ) : ℤ := if 0 ≤ x then ⌊x⌋ else ⌈x⌉

/-- Line 22: `numerator, denominator = map(int, signature.split('/'))`; fails
(Python raises) unless the split yields exactly two valid integer literals. -/
def parseSignature (signature : String) : Option (ℤ × ℤ) :=
  match (splitChar '/' signature).map pyParseInt with
  | [some numerator, some denominator] => some (numerator, denominator)
  | _ => none

/-- Lines 27-28: `milliseconds_per_bar = (60000 / bpm) * beats_per_bar`,
multiplied by `num_bars` (the truncation is applied by the caller). -/
def instantDuration (bpm beats_per_bar : ℚ) (num_bars : ℕ) : ℚ :=
  (60000 / bpm) * beats_per_bar * num_bars

/-- Lines 34-35: `progress = (bar / num_bars) ** 0.52` and
`current_bpm = previous_bpm + (bpm - previous_bpm) * progress`. -/
noncomputable def currentBpm (previous_bpm bpm : ℚ) (bar num_bars : ℕ) : ℝ :=
  (previous_bpm : ℝ)
    + ((bpm : ℝ) - (previous_bpm : ℝ)) * (((bar : ℝ) / (num_bars : ℝ)) ^ (0.52 : ℝ))

/-- Lines 31-37: the accumulated `total_time` of the gradual branch,
`sum over bar < num_bars of (60000 / current_bpm) * beats_per_bar`. -/
noncomputable def gradualTotal (previous_bpm bpm beats_per_bar : ℚ) (num_bars : ℕ) : ℝ :=
  Finset.sum (Finset.range num_bars)
    (fun bar => (60000 / currentBpm previous_bpm bpm bar num_bars) * (beats_per_bar : ℝ))

open Classical in
/-- Lines 9-42, `calculate_start_time`.  The source's branch condition
`transition == "instant" or previous_bpm is None` (line 26) is rendered by
first distinguishing on `previous_bpm`: when it is absent the instant branch
is taken whatever the transition string is.  Python's `ZeroDivisionError` is
made explicit: a zero denominator, a zero bpm in the instant branch, or a bar
with zero interpolated bpm in the gradual branch raise before any value is
returned. -/
noncomputable def calculate_start_time (previous_time : ℤ) (signature : String)
    (bpm : ℚ) (num_bars : ℕ) (transition : String) (previous_bpm : Option ℚ) :
    Except String ℤ :=
  match parseSignature signature with
  | none => Except.error "malformed signature"
  | some (numerator, denominator) =>
    if denominator = 0 then Except.error "division by zero" else
    let beats_per_bar : ℚ := (numerator * 4) / denominator
    let instantCase : Except String ℤ :=
      if bpm = 0 then Except.error "division by zero"
      else Except.ok (previous_time + pyTruncQ (instantDuration bpm beats_per_bar num_bars))
    match previous_bpm with
    | none => instantCase
    | some pbpm =>
      if transition = "instant" then instantCase
      else if transition = "gradual" then
        if ∃ bar ∈ Finset.range num_bars, currentBpm pbpm bpm bar num_bars = 0 then
          Except.error "division by zero"
        else
          Except.ok (previous_time + pyTruncR (gradualTotal pbpm bpm beats_per_bar num_bars))
      else Except.error ("Unknown transition type: " ++ transition)

/-! ## The data model -/

/-- An `xml.etree.ElementTree` element: tag, attributes (each set once by the
source, so a plain association list), text, children. -/
structure Elem where
  tag : String
  attrs : List (String × String)
  text : String
  children : List Elem

/-- Attribute lookup, `""` when absent (the source never reads an absent
attribute). -/
def attrOf (e : Elem) (key : String) : String :=
  ((e.attrs.find? (fun p => p.1 = key)).map Prod.snd).getD ""

/-- One row of `setup/groups.csv`: the externally assigned membership `id`,
the raw `category` cell, and the `Channels` count (the remaining columns are
never read by the compiler). -/
structure GroupRow where
  id : ℤ
  category : String
  channels : ℕ

/-- One row of a show's `_structure.csv` (the columns the compiler reads). -/
structure StructRow where
  showpart : String
  color : String
  signature : String
  bpm : ℚ
  num_bars : ℕ
  transition : String

/-- One object of a show's `_values.json`; `effect`, `speed` and `color` are
optional keys (lines 172-174 read them with `.get` defaults). -/
structure ValueItem where
  show_part : String
  fixture_group : String
  effect : Option String
  speed : Option String
  color : Option String

/-- Pandas `read_csv` NA handling for the `category` column: the empty cell
and the token `"None"` are default NA values and become NaN (`none`). -/
def readCategory (cell : String) : Option String :=
  if cell = "" ∨ cell = "None" then none else some cell

/-- Line 121, the pandas unique of the category column: first-occurrence order, one
NaN at most.  `seen` carries the values already emitted. -/
def uniqueFirstAux : List (Option String) → List (Option String) → List (Option String)
  | [], _ => []
  | x :: xs, seen =>
    if x ∈ seen then uniqueFirstAux xs seen
    else x :: uniqueFirstAux xs (seen ++ [x])

def uniqueFirst (l : List (Option String)) : List (Option String) :=
  uniqueFirstAux l []

/-- Lines 112-114: the `show_values` dict is built by inserting every item
under its `(show_part, fixture_group)` key, so the last matching item wins. -/
def lookupValue (values : List ValueItem) (show_part fixture_group : String) :
    Option ValueItem :=
  values.foldl
    (fun acc item =>
      if item.show_part = show_part ∧ item.fixture_group = fixture_group then some item
      else acc)
    none

/-- Line 172: `effect_data.get('effect', '')`. -/
def effectNameOf (values : List ValueItem) (show_part fixture_group : String) : String :=
  match lookupValue values show_part fixture_group with
  | none => ""
  | some item => item.effect.getD ""

/-- Line 173: `effect_data.get('speed', '1')`. -/
def effectSpeedOf (values : List ValueItem) (show_part fixture_group : String) : String :=
  match lookupValue values show_part fixture_group with
  | none => "1"
  | some item => item.speed.getD "1"

/-- Line 174: `effect_data.get('color', '')`. -/
def effectColorOf (values : List ValueItem) (show_part fixture_group : String) : String :=
  match lookupValue values show_part fixture_group with
  | none => ""
  | some item => item.color.getD ""

/-! ## Document assembly -/

/-- The `Speed` child used by scenes and sequences (lines 62-65, 144-147). -/
def speedElem : Elem :=
  ⟨"Speed", [("FadeIn", "0"), ("FadeOut", "0"), ("Duration", "0")], "", []⟩

/-- Lines 45-78, `create_sequence`: a Sequence Function with its fixed
children.  `bound_scene_id` is the scene's `ID` attribute string. -/
def create_sequence (sequence_id : ℤ) (sequence_name : String)
    (bound_scene_id : String) : Elem :=
  { tag := "Function"
    attrs := [("ID", intStr sequence_id), ("Type", "Sequence"),
              ("Name", sequence_name), ("BoundScene", bound_scene_id)]
    text := ""
    children :=
      [speedElem,
       ⟨"Direction", [], "Forward", []⟩,
       ⟨"RunOrder", [], "SingleShot", []⟩,
       ⟨"SpeedModes",
        [("FadeIn", "PerStep"), ("FadeOut", "PerStep"), ("Duration", "PerStep")], "", []⟩] }

/-- Modelled from the spec: the effect-step collaborator `create_step`
(`utils/step_utils`, outside the sources under study) "appends effect-specific
child structures to the sequence" given an effect name, a speed value and a
color value; modelled as appending one step child that records its
arguments. -/
def create_step (sequence : Elem) (effect_name effect_speed effect_color : String) : Elem :=
  { sequence with
      children := sequence.children ++
        [⟨"EffectStep",
          [("Effect", effect_name), ("Speed", effect_speed), ("Color", effect_color)],
          "", []⟩] }

/-- Line 158: `','.join([f"{i},0" for i in range(int(fixture['Channels']))])`. -/
def fixtureChannelsText (channels : ℕ) : String :=
  String.intercalate "," (List.map (fun i : ℕ => intStr i ++ ",0") (List.range channels))

/-- Lines 156-158: one `FixtureVal` for one membership row. -/
def mkFixtureVal (g : GroupRow) : Elem :=
  ⟨"FixtureVal", [("ID", intStr g.id)], fixtureChannelsText g.channels, []⟩

/-- Lines 154-158: the `FixtureVal` children for one category, in file row
order.  The pandas comparison `groups_df['category'] == category` is on the
NA-processed cells, and NaN compares unequal to everything. -/
def fixtureValElems (groups : List GroupRow) (category : String) : List Elem :=
  (groups.filter (fun g => readCategory g.category = some category)).map mkFixtureVal

/-- Lines 137-158: the Scene Function for one category of one show. -/
def mkScene (show_name : String) (track_id scene_id : ℤ) (groups : List GroupRow)
    (category : String) : Elem :=
  { tag := "Function"
    attrs := [("ID", intStr scene_id), ("Type", "Scene"),
              ("Name", "Scene for " ++ show_name ++ " - Track " ++ intStr (track_id + 1)),
              ("Hidden", "True")]
    text := ""
    children := [speedElem, ⟨"ChannelGroupsVal", [], "0,0", []⟩]
      ++ fixtureValElems groups category }

/-! ## The show-part loop (shows_to_xml.py lines 162-203) -/

/-- State threaded through the show-part loop of one category: the global id
counter, the running start time, the previous part's bpm, the Sequence
Functions appended to the root so far, and the `ShowFunction` children
appended to the track so far. -/
structure RowState where
  current_id : ℤ
  start_time : ℤ
  previous_bpm : Option ℚ
  seqs : List Elem
  sfs : List Elem

/-- Lines 170-184: the Sequence appended to the root for one row — lines
171-177 name it and create it, line 180 invokes `create_step` on it exactly
when `effect_name == ""`. -/
def rowSeqElem (show_name category : String) (values : List ValueItem)
    (scene_id_attr : String) (cid : ℤ) (row : StructRow) : Elem :=
  let effect_name := effectNameOf values row.showpart category
  let sequence_name := show_name ++ "_" ++ category ++ "_" ++ row.showpart
  let seq0 := create_sequence cid sequence_name scene_id_attr
  if effect_name = "" then
    create_step seq0 effect_name (effectSpeedOf values row.showpart category)
      (effectColorOf values row.showpart category)
  else seq0

/-- Lines 187-190: the `ShowFunction` appended to the track for one row. -/
def rowSfElem (cid start_time : ℤ) (row : StructRow) : Elem :=
  ⟨"ShowFunction",
   [("ID", intStr cid), ("StartTime", intStr start_time), ("Color", row.color)], "", []⟩

/-- Lines 166-203: one pass of `for _, row in structure_df.iterrows()`.
Per row: look up the effect override, create the Sequence (appended to root),
invoke `create_step` on it when `effect_name == ""` (line 180), append the
`ShowFunction` to the track, then compute the next start time — which can
raise, in which case the elements already appended stay in the tree and the
error propagates (second component `some e`). -/
noncomputable def processRows (show_name category : String) (values : List ValueItem)
    (scene_id_attr : String) : List StructRow → RowState → RowState × Option String
  | [], st => (st, none)
  | row :: rest, st =>
    let st1 : RowState := { st with
      seqs := st.seqs ++ [rowSeqElem show_name category values scene_id_attr st.current_id row],
      sfs := st.sfs ++ [rowSfElem st.current_id st.start_time row] }
    match calculate_start_time st.start_time row.signature row.bpm row.num_bars
        row.transition st.previous_bpm with
    | Except.error e => (st1, some e)
    | Except.ok t =>
      processRows show_name category values scene_id_attr rest
        { st1 with current_id := st.current_id + 1, start_time := t,
                   previous_bpm := some row.bpm }

/-! ## The category loop (lines 125-205) -/

/-- State threaded through the category loop: global id counter, track-local
id counter, Track elements appended to the show Function, and Scene/Sequence
Functions appended to the root. -/
structure CatState where
  current_id : ℤ
  track_id : ℤ
  tracks : List Elem
  rootFuncs : List Elem

/-- Lines 125-205: one pass of `for category in categories`.  NaN and the
literal `"None"` are skipped (line 126).  For a kept category: the Track and
its Scene are created (the Track's `ShowFunction` children accumulate during
the row loop, so the Track is materialized with them), `current_id` advances
past the scene (line 160), and the row loop runs.  A raised error stops the
whole loop, keeping everything already appended; `track_id += 1` (line 205)
is then never reached. -/
noncomputable def processCats (show_name : String) (groups : List GroupRow)
    (rows : List StructRow) (values : List ValueItem) :
    List (Option String) → CatState → CatState × Option String
  | [], st => (st, none)
  | cat :: rest, st =>
    match cat with
    | none => processCats show_name groups rows values rest st
    | some category =>
      if category = "None" then processCats show_name groups rows values rest st
      else
        let scene := mkScene show_name st.track_id st.current_id groups category
        let rowsOut := processRows show_name category values (intStr st.current_id) rows
          ⟨st.current_id + 1, 0, none, [], []⟩
        let track : Elem := ⟨"Track",
            [("ID", intStr st.track_id), ("Name", upperStr category),
             ("SceneID", intStr st.current_id), ("isMute", "0")], "", rowsOut.1.sfs⟩
        let st1 : CatState := ⟨rowsOut.1.current_id, st.track_id + 1,
            st.tracks ++ [track], st.rootFuncs ++ [scene] ++ rowsOut.1.seqs⟩
        match rowsOut.2 with
        | some e => ({ st1 with track_id := st.track_id }, some e)
        | none => processCats show_name groups rows values rest st1

/-! ## `create_tracks` (lines 81-207) -/

/-- The outcome of `create_tracks`: Track elements appended to the show
Function, Scene/Sequence Functions appended to the root, the Python return
value (`some next_id`, or `none` for `return None`), and a raised exception
if any (which trumps the return value). -/
structure TracksOut where
  trackElems : List Elem
  rootFuncs : List Elem
  retNextId : Option ℤ
  error : Option String

/-- Lines 81-207, `create_tracks`.  `groupsFile` is the parsed
`setup/groups.csv` (`none` when the file is missing), `hasStructureFile`
records whether the show's `_structure.csv` exists, `rows`/`values` the
parsed structure and values tables.  `function_id` carries the show
Function's `"ID"` attribute: `some n` for the string `str(n)`, `none` for
the string `"None"` (from `str(None)`), on which `int()` (line 122) raises
`ValueError`.  The file-missing checks (lines 99-104) return `None` before
anything else happens. -/
noncomputable def create_tracks (groupsFile : Option (List GroupRow))
    (hasStructureFile : Bool) (rows : List StructRow) (values : List ValueItem)
    (function_id : Option ℤ) (show_name : String) : TracksOut :=
  match groupsFile with
  | none => ⟨[], [], none, none⟩
  | some groups =>
    if hasStructureFile = false then ⟨[], [], none, none⟩
    else
      match function_id with
      | none => ⟨[], [], none, some "invalid literal for int() with base 10: None"⟩
      | some fid =>
        let categories := uniqueFirst (groups.map (fun g => readCategory g.category))
        let catsOut := processCats show_name groups rows values categories
          ⟨fid + 1, 0, [], []⟩
        match catsOut.2 with
        | some e => ⟨catsOut.1.tracks, catsOut.1.rootFuncs, none, some e⟩
        | none => ⟨catsOut.1.tracks, catsOut.1.rootFuncs, some catsOut.1.current_id, none⟩

/-! ## `create_shows` (lines 210-274) -/

/-- One show directory, with the presence flags of its three required files
and its parsed contents.  `timeType` and `bpmDefault` are the already
defaulted `TimeDivision` attribute strings from the setup descriptor. -/
structure ShowDir where
  name : String
  hasSetup : Bool
  hasStructure : Bool
  hasValues : Bool
  timeType : String
  bpmDefault : String
  rows : List StructRow
  values : List ValueItem

/-- The state of `create_shows`: the root's children so far, the running
`show_id` (`none` once a `create_tracks` call has returned `None`), the
reported per-show errors, and the shows skipped for missing files. -/
structure ShowsState where
  root : List Elem
  show_id : Option ℤ
  errors : List String
  skipped : List String

/-- Lines 255-257: the `TimeDivision` child. -/
def timeDivision (s : ShowDir) : Elem :=
  ⟨"TimeDivision", [("Type", s.timeType), ("BPM", s.bpmDefault)], "", []⟩

/-- The show Function's `"ID"` attribute: `str(show_id)`, which is the string
`"None"` when `show_id` is Python `None`. -/
def showIdAttr : Option ℤ → String
  | some n => intStr n
  | none => "None"

/-- Lines 230-272: processing of one show directory.  Missing required files
skip the show (lines 241, 271-272).  Otherwise the show Function and its
`TimeDivision` are created, `create_tracks` runs, and on an exception the
handler (lines 267-270) reports the error and leaves `show_id` unchanged;
on success `show_id` becomes the returned next id (line 261), which is
Python `None` when `create_tracks` returned `None`. -/
noncomputable def create_shows_step (groupsFile : Option (List GroupRow))
    (st : ShowsState) (s : ShowDir) : ShowsState :=
  if s.hasSetup ∧ s.hasStructure ∧ s.hasValues then
    let tr := create_tracks groupsFile s.hasStructure s.rows s.values st.show_id s.name
    let functionElem : Elem :=
      ⟨"Function", [("ID", showIdAttr st.show_id), ("Type", "Show"), ("Name", s.name)],
       "", [timeDivision s] ++ tr.trackElems⟩
    match tr.error with
    | some e =>
      { st with root := st.root ++ [functionElem] ++ tr.rootFuncs,
                errors := st.errors ++ [e] }
    | none =>
      { st with root := st.root ++ [functionElem] ++ tr.rootFuncs,
                show_id := tr.retNextId }
  else { st with skipped := st.skipped ++ [s.name] }

noncomputable def create_shows_aux (groupsFile : Option (List GroupRow)) :
    List ShowDir → ShowsState → ShowsState
  | [], st => st
  | s :: rest, st => create_shows_aux groupsFile rest (create_shows_step groupsFile st s)

/-- Lines 210-274, `create_shows`: fold over the show directories in sorted
name order (the order of `shows`), starting from `show_id = 0`. -/
noncomputable def create_shows (groupsFile : Option (List GroupRow))
    (shows : List ShowDir) : ShowsState :=
  create_shows_aux groupsFile shows ⟨[], some 0, [], []⟩

/-! ## Observation helpers -/

/-- The `"ID"` attributes of the Function elements among the root's children
(every Show, Scene and Sequence Function is a root child). -/
def functionIds (root : List Elem) : List String :=
  (root.filter (fun e => e.tag = "Function")).map (fun e => attrOf e "ID")

/-- The decimal strings of the `len` consecutive integers starting at
`start`. -/
def idRange (start : ℤ) : ℕ → List String
  | 0 => []
  | len + 1 => intStr start :: idRange (start + 1) len

/-- Whether the effect-step collaborator ran on a sequence. -/
def hasStep (e : Elem) : Prop :=
  ∃ c ∈ e.children, c.tag = "EffectStep"

/-- The Scene Functions among a list of root children. -/
def scenesOf (l : List Elem) : List Elem :=
  l.filter (fun e => attrOf e "Type" = "Scene")

/-- The `FixtureVal` children of an element. -/
def sceneFixtureVals (e : Elem) : List Elem :=
  e.children.filter (fun c => c.tag = "FixtureVal")

/-- The category values of a list that the category loop keeps: NaN (`none`)
and the literal `"None"` are dropped, order preserved. -/
def catsQual (cats : List (Option String)) : List String :=
  cats.filterMap
    (fun o => match o with
      | none => none
      | some c => if c = "None" then none else some c)

/-- The qualifying categories of the groups table: first-occurrence order,
with NaN and the literal `"None"` removed — exactly the categories the
category loop keeps. -/
def qualCats (groups : List GroupRow) : List String :=
  catsQual (uniqueFirst (groups.map (fun g => readCategory g.category)))

/-! ## Lemmas about `calculate_start_time` -/

/-- A well-formed structure row: parsable signature with positive numerator
and denominator, positive bpm, and a transition from the allowed set. -/
def RowWF (r : StructRow) : Prop :=
  (∃ n d : ℤ, parseSignature r.signature = some (n, d) ∧ 0 < n ∧ 0 < d)
    ∧ 0 < r.bpm ∧ (r.transition = "instant" ∨ r.transition = "gradual")

/-! ## Lemmas about the show-part loop -/

/-- Shape of any sequence element produced by the row loop. -/
def SeqShaped (e : Elem) : Prop :=
  ∃ i nm sid en sp co, e = create_sequence i nm sid
    ∨ e = create_step (create_sequence i nm sid) en sp co

/-- Neutral defaults used only for positional (`getD`) access in statements. -/
def defaultElem : Elem := ⟨"", [], "", []⟩

def defaultRow : StructRow := ⟨"", "", "", 0, 0, ""⟩

/-! ## Lemmas about the category loop -/

/-- The Track element materialized for one kept category. -/
def trackElem (cat : String) (tid cid : ℤ) (sfs : List Elem) : Elem :=
  ⟨"Track",
   [("ID", intStr tid), ("Name", upperStr cat), ("SceneID", intStr cid), ("isMute", "0")],
   "", sfs⟩

/-! ## Lemmas about `create_tracks` and `create_shows` -/

/-- The degenerate show Function emitted when the groups file is missing:
its id attribute comes from the current seed and it has no Track children. -/
def noTracksFn (sid : Option ℤ) (sh : ShowDir) : Elem :=
  ⟨"Function", [("ID", showIdAttr sid), ("Type", "Show"), ("Name", sh.name)],
   "", [timeDivision sh]⟩

/-! ## The claims -/

/-- Concrete structure rows used by witnesses and counterexamples (all with
zero bars, so that their durations are zero). -/
def rowInstantA : StructRow := ⟨"intro", "Red", "4/4", 120, 0, "instant"⟩

def rowGradualB : StructRow := ⟨"mid", "Blue", "4/4", 130, 0, "gradual"⟩

def rowInstantC : StructRow := ⟨"end", "Green", "4/4", 140, 0, "instant"⟩

/-- A row with a transition outside the allowed set. -/
def rowBadTransition : StructRow := ⟨"drop", "Blue", "4/4", 150, 2, "fade"⟩

/-- The strict-increase rule exactly as the claim words it: consecutive start
times strictly increase, except across a part with zero bars and an instant
transition. -/
def claimedStrictIncrease (rows : List StructRow) (ts : List ℤ) : Prop :=
  ∀ i, i + 1 < ts.length →
    ts.getD i 0 < ts.getD (i + 1) 0
    ∨ ((rows.getD i defaultRow).num_bars = 0
        ∧ (rows.getD i defaultRow).transition = "instant")

/-- The concrete inputs of the C4 batch: one category, a first show whose
second row has the unknown transition `"fade"`, and a healthy second show. -/
def c4groups : List GroupRow := [⟨1, "stage", 1⟩]

def c4show1 : ShowDir :=
  ⟨"alpha", true, true, true, "Time", "120", [rowInstantA, rowBadTransition], []⟩

def c4show2 : ShowDir := ⟨"beta", true, true, true, "Time", "120", [rowInstantA], []⟩

/-- Concrete two-show batch with every per-show file present, used against a
missing groups file. -/
def c10show1 : ShowDir := ⟨"alpha", true, true, true, "Time", "120", [], []⟩

def c10show2 : ShowDir := ⟨"beta", true, true, true, "Time", "120", [], []⟩

/-! # Theorems -/

/-! ## Decimal representation of integers (Python `str` on `int`) -/

theorem digitVal_digitCharOf {n : ℕ} (h : n < 10) : digitVal (digitCharOf n) = n := by
  unfold digitCharOf
  split_ifs with h0 h1 h2 h3 h4 h5 h6 h7 h8 <;> simp_all [digitVal] <;> omega

theorem digitCharOf_ne_dash (n : ℕ) : digitCharOf n ≠ '-' := by
  unfold digitCharOf
  split_ifs <;> decide

theorem decDigits_foldl (f : ℕ) : ∀ n a, n < 10 ^ (f + 1) →
    List.foldl (fun acc c => acc * 10 + digitVal c) a (decDigits (f + 1) n)
      = a * 10 ^ (decDigits (f + 1) n).length + n := by
  induction f with
  | zero =>
    intro n a hn
    have hn' : n < 10 := by simpa using hn
    simp [decDigits, hn', digitVal_digitCharOf hn']
  | succ f ih =>
    intro n a hn
    by_cases h10 : n < 10
    · simp [decDigits, h10, digitVal_digitCharOf h10]
    · have hmod : n % 10 < 10 := Nat.mod_lt _ (by norm_num)
      have hdiv : n / 10 < 10 ^ (f + 1) := by
        rw [Nat.div_lt_iff_lt_mul (by norm_num : (0:ℕ) < 10)]
        calc n < 10 ^ (f + 1 + 1) := hn
          _ = 10 ^ (f + 1) * 10 := by ring
      rw [show decDigits (f + 1 + 1) n
            = decDigits (f + 1) (n / 10) ++ [digitCharOf (n % 10)] by
          rw [decDigits]; rw [if_neg h10]]
      rw [List.foldl_append, ih (n / 10) a hdiv]
      simp [digitVal_digitCharOf hmod]
      have hdm : 10 * (n / 10) + n % 10 = n := Nat.div_add_mod n 10
      set k := 10 ^ (decDigits (f + 1) (n / 10)).length with hk
      set m := a * k with hm
      calc (m + n / 10) * 10 + n % 10
          = m * 10 + (10 * (n / 10) + n % 10) := by ring
        _ = m * 10 + n := by rw [hdm]
        _ = a * (k * 10) + n := by rw [hm]; ring
        _ = _ := by rw [hk]; ring

theorem decVal_decDigits (n : ℕ) : decVal (decDigits (n + 1) n) = n := by
  have hlt : n < 10 ^ (n + 1) := by
    calc n < 10 ^ n := Nat.lt_pow_self (by norm_num) n
      _ ≤ 10 ^ (n + 1) := Nat.pow_le_pow_right (by norm_num) (by omega)
  have h := decDigits_foldl n n 0 hlt
  simpa [decVal] using h

theorem decDigits_mem_ne_dash : ∀ f n c, c ∈ decDigits f n → c ≠ '-' := by
  intro f
  induction f with
  | zero => intro n c hc; simp [decDigits] at hc
  | succ f ih =>
    intro n c hc
    rw [decDigits] at hc
    by_cases h10 : n < 10
    · rw [if_pos h10] at hc
      simp at hc
      subst hc
      exact digitCharOf_ne_dash n
    · rw [if_neg h10] at hc
      rcases List.mem_append.mp hc with h | h
      · exact ih _ _ h
      · simp at h
        subst h
        exact digitCharOf_ne_dash (n % 10)

theorem intStr_injective : Function.Injective intStr := by
  intro n m h
  unfold intStr at h
  by_cases hn : n < 0 <;> by_cases hm : m < 0
  · rw [if_pos hn, if_pos hm] at h
    have hdata : ('-' :: decDigits ((-n).toNat + 1) (-n).toNat)
        = ('-' :: decDigits ((-m).toNat + 1) (-m).toNat) := by
      have h2 := congrArg String.data h
      simpa [String.data_append] using h2
    have htail : decDigits ((-n).toNat + 1) (-n).toNat
        = decDigits ((-m).toNat + 1) (-m).toNat := by
      simpa using hdata
    have hv := congrArg decVal htail
    rw [decVal_decDigits, decVal_decDigits] at hv
    omega
  · rw [if_pos hn, if_neg hm] at h
    exfalso
    have hdata : ('-' :: decDigits ((-n).toNat + 1) (-n).toNat)
        = decDigits (m.toNat + 1) m.toNat := by
      have h2 := congrArg String.data h
      simpa [String.data_append] using h2
    have hdash : '-' ∈ decDigits (m.toNat + 1) m.toNat := by
      rw [← hdata]; exact List.mem_cons_self _ _
    exact decDigits_mem_ne_dash _ _ _ hdash rfl
  · rw [if_neg hn, if_pos hm] at h
    exfalso
    have hdata : decDigits (n.toNat + 1) n.toNat
        = ('-' :: decDigits ((-m).toNat + 1) (-m).toNat) := by
      have h2 := congrArg String.data h
      simpa [String.data_append] using h2
    have hdash : '-' ∈ decDigits (n.toNat + 1) n.toNat := by
      rw [hdata]; exact List.mem_cons_self _ _
    exact decDigits_mem_ne_dash _ _ _ hdash rfl
  · rw [if_neg hn, if_neg hm] at h
    have hdata : decDigits (n.toNat + 1) n.toNat = decDigits (m.toNat + 1) m.toNat := by
      have h2 := congrArg String.data h
      simpa using h2
    have hv := congrArg decVal hdata
    rw [decVal_decDigits, decVal_decDigits] at hv
    omega

/-! ## The timing engine: `calculate_start_time` (shows_to_xml.py lines 9-42) -/

theorem pyTruncQ_eq_floor {q : ℚ} (h : 0 ≤ q) : pyTruncQ q = ⌊q⌋ := if_pos h

theorem pyTruncQ_zero : pyTruncQ 0 = 0 := by simp [pyTruncQ]

theorem pyTruncQ_nonneg {q : ℚ} (h : 0 ≤ q) : 0 ≤ pyTruncQ q := by
  rw [pyTruncQ_eq_floor h]
  exact Int.floor_nonneg.mpr h

theorem pyTruncR_zero : pyTruncR 0 = 0 := by simp [pyTruncR]

theorem pyTruncR_nonneg {x : ℝ} (h : 0 ≤ x) : 0 ≤ pyTruncR x := by
  rw [pyTruncR, if_pos h]
  exact Int.floor_nonneg.mpr h

/-! ## Lemmas about `calculate_start_time` -/

theorem calc_instant_eq (previous_time : ℤ) (sig : String) (n d : ℤ) (bpm : ℚ)
    (num_bars : ℕ) (transition : String) (previous_bpm : Option ℚ)
    (hsig : parseSignature sig = some (n, d)) (hn : 0 < n) (hd : 0 < d) (hbpm : 0 < bpm)
    (htr : transition = "instant" ∨ previous_bpm = none) :
    calculate_start_time previous_time sig bpm num_bars transition previous_bpm
      = Except.ok (previous_time
          + ⌊(60000 / bpm) * ((n * 4 : ℚ) / (d : ℚ)) * (num_bars : ℚ)⌋) := by
  have hbeats : (0:ℚ) ≤ (n * 4 : ℚ) / (d : ℚ) := by
    apply div_nonneg
    · have : (0:ℚ) < (n : ℚ) := by exact_mod_cast hn
      positivity
    · have : (0:ℚ) < (d : ℚ) := by exact_mod_cast hd
      exact this.le
  have hdur : (0:ℚ) ≤ instantDuration bpm ((n * 4 : ℚ) / (d : ℚ)) num_bars := by
    unfold instantDuration
    have h60 : (0:ℚ) ≤ 60000 / bpm := by positivity
    positivity
  have htrunc : pyTruncQ (instantDuration bpm ((n * 4 : ℚ) / (d : ℚ)) num_bars)
      = ⌊(60000 / bpm) * ((n * 4 : ℚ) / (d : ℚ)) * (num_bars : ℚ)⌋ := by
    rw [pyTruncQ_eq_floor hdur]
    rfl
  rw [calculate_start_time, hsig]
  have hd0 : ¬ (d = 0) := by omega
  rcases htr with htr | htr
  · subst htr
    cases previous_bpm with
    | none => simp only [if_neg hd0, if_neg hbpm.ne', htrunc]
    | some p => simp only [if_neg hd0, if_pos rfl, if_neg hbpm.ne', htrunc, if_true]
  · subst htr
    simp only [if_neg hd0, if_neg hbpm.ne', htrunc]

theorem calc_unknown_transition (previous_time : ℤ) (sig : String) (n d : ℤ)
    (bpm : ℚ) (num_bars : ℕ) (transition : String) (p : ℚ)
    (hsig : parseSignature sig = some (n, d)) (hd : d ≠ 0)
    (hti : transition ≠ "instant") (htg : transition ≠ "gradual") :
    calculate_start_time previous_time sig bpm num_bars transition (some p)
      = Except.error ("Unknown transition type: " ++ transition) := by
  rw [calculate_start_time, hsig]
  simp only [if_neg hd, if_neg hti, if_neg htg]

theorem calc_gradual_zero_bars (previous_time : ℤ) (sig : String) (n d : ℤ)
    (bpm p : ℚ) (hsig : parseSignature sig = some (n, d)) (hd : d ≠ 0) :
    calculate_start_time previous_time sig bpm 0 "gradual" (some p)
      = Except.ok previous_time := by
  rw [calculate_start_time, hsig]
  have hnotinst : ¬ (("gradual" : String) = "instant") := by decide
  have hnoz : ¬ ∃ bar ∈ Finset.range 0, currentBpm p bpm bar 0 = 0 := by simp
  simp only [if_neg hd, if_neg hnotinst, if_pos rfl, if_neg hnoz, if_true]
  rw [show gradualTotal p bpm ((n * 4 : ℚ) / (d : ℚ)) 0 = 0 by
    simp [gradualTotal]]
  rw [pyTruncR_zero, add_zero]

theorem calc_instant_zero_bars (previous_time : ℤ) (sig : String) (n d : ℤ)
    (bpm : ℚ) (transition : String) (previous_bpm : Option ℚ)
    (hsig : parseSignature sig = some (n, d)) (hn : 0 < n) (hd : 0 < d) (hbpm : 0 < bpm)
    (htr : transition = "instant" ∨ previous_bpm = none) :
    calculate_start_time previous_time sig bpm 0 transition previous_bpm
      = Except.ok previous_time := by
  rw [calc_instant_eq previous_time sig n d bpm 0 transition previous_bpm hsig hn hd hbpm htr]
  norm_num

theorem currentBpm_pos {p b : ℚ} (hp : 0 < p) (hb : 0 < b) (bar n : ℕ)
    (hbar : bar < n) : 0 < currentBpm p b bar n := by
  have hn : 0 < n := by omega
  have hnR : (0:ℝ) < (n : ℝ) := by exact_mod_cast hn
  unfold currentBpm
  set x : ℝ := ((bar : ℝ) / (n : ℝ)) ^ (0.52 : ℝ) with hx
  have hx0 : 0 ≤ x := Real.rpow_nonneg (by positivity) _
  have hx1 : x ≤ 1 := by
    apply Real.rpow_le_one (by positivity) _ (by norm_num)
    rw [div_le_one hnR]
    exact_mod_cast hbar.le
  have hpR : (0:ℝ) < (p : ℚ) := by exact_mod_cast hp
  have hbR : (0:ℝ) < (b : ℚ) := by exact_mod_cast hb
  rcases le_total (p:ℝ) (b:ℝ) with hle | hle
  · have : 0 ≤ ((b:ℝ) - (p:ℝ)) * x := mul_nonneg (by linarith) hx0
    linarith
  · have : ((b:ℝ) - (p:ℝ)) * 1 ≤ ((b:ℝ) - (p:ℝ)) * x :=
      mul_le_mul_of_nonpos_left hx1 (by linarith)
    linarith

theorem gradualTotal_nonneg {p b beats : ℚ} (hp : 0 < p) (hb : 0 < b)
    (hbeats : 0 ≤ beats) (num_bars : ℕ) : 0 ≤ gradualTotal p b beats num_bars := by
  unfold gradualTotal
  apply Finset.sum_nonneg
  intro bar hbar
  have hcur : 0 < currentBpm p b bar num_bars :=
    currentBpm_pos hp hb bar num_bars (Finset.mem_range.mp hbar)
  have : (0:ℝ) ≤ (beats : ℚ) := by exact_mod_cast hbeats
  positivity

theorem calc_wf_ok (t : ℤ) (r : StructRow) (previous_bpm : Option ℚ)
    (hwf : RowWF r)
    (hprev : previous_bpm = none ∨ ∃ p, previous_bpm = some p ∧ 0 < p) :
    ∃ t', calculate_start_time t r.signature r.bpm r.num_bars r.transition previous_bpm
        = Except.ok t' ∧ t ≤ t' ∧ (r.num_bars = 0 → t' = t) := by
  obtain ⟨⟨n, d, hsig, hn, hd⟩, hbpm, htrans⟩ := hwf
  have hbeats : (0:ℚ) ≤ (n * 4 : ℚ) / (d : ℚ) := by
    apply div_nonneg
    · have : (0:ℚ) < (n : ℚ) := by exact_mod_cast hn
      positivity
    · have : (0:ℚ) < (d : ℚ) := by exact_mod_cast hd
      exact this.le
  rcases hprev with hprev | ⟨p, hprev, hp⟩
  · subst hprev
    refine ⟨t + ⌊(60000 / r.bpm) * ((n * 4 : ℚ) / (d : ℚ)) * (r.num_bars : ℚ)⌋,
      calc_instant_eq t r.signature n d r.bpm r.num_bars r.transition none hsig hn hd hbpm
        (Or.inr rfl), ?_, ?_⟩
    · have : (0:ℚ) ≤ (60000 / r.bpm) * ((n * 4 : ℚ) / (d : ℚ)) * (r.num_bars : ℚ) := by
        have h60 : (0:ℚ) ≤ 60000 / r.bpm := by positivity
        positivity
      have := Int.floor_nonneg.mpr this
      omega
    · intro h0
      rw [h0]
      norm_num
  · subst hprev
    rcases htrans with htr | htr
    · refine ⟨t + ⌊(60000 / r.bpm) * ((n * 4 : ℚ) / (d : ℚ)) * (r.num_bars : ℚ)⌋,
        calc_instant_eq t r.signature n d r.bpm r.num_bars r.transition (some p) hsig hn hd
          hbpm (Or.inl htr), ?_, ?_⟩
      · have : (0:ℚ) ≤ (60000 / r.bpm) * ((n * 4 : ℚ) / (d : ℚ)) * (r.num_bars : ℚ) := by
          have h60 : (0:ℚ) ≤ 60000 / r.bpm := by positivity
          positivity
        have := Int.floor_nonneg.mpr this
        omega
      · intro h0
        rw [h0]
        norm_num
    · have hnotinst : r.transition ≠ "instant" := by
        rw [htr]; decide
      have hnoz : ¬ ∃ bar ∈ Finset.range r.num_bars, currentBpm p r.bpm bar r.num_bars = 0 := by
        rintro ⟨bar, hbar, hz⟩
        exact absurd hz
          (currentBpm_pos hp hbpm bar r.num_bars (Finset.mem_range.mp hbar)).ne'
      have htot : 0 ≤ gradualTotal p r.bpm ((n * 4 : ℚ) / (d : ℚ)) r.num_bars :=
        gradualTotal_nonneg hp hbpm hbeats r.num_bars
      refine ⟨t + pyTruncR (gradualTotal p r.bpm ((n * 4 : ℚ) / (d : ℚ)) r.num_bars), ?_, ?_, ?_⟩
      · rw [calculate_start_time, hsig]
        have hd0 : ¬ (d = 0) := by omega
        have hgi : ¬ (("gradual" : String) = "instant") := by decide
        simp only [if_neg hd0, if_neg hnotinst, htr, if_pos rfl, if_neg hnoz, if_neg hgi,
          if_true]
      · have := pyTruncR_nonneg htot
        omega
      · intro h0
        rw [show gradualTotal p r.bpm ((n * 4 : ℚ) / (d : ℚ)) r.num_bars = 0 by
          rw [h0]; simp [gradualTotal]]
        rw [pyTruncR_zero, add_zero]

/-! ## Lemmas about the show-part loop -/

theorem attrOf_create_step (e : Elem) (a b c key : String) :
    attrOf (create_step e a b c) key = attrOf e key := rfl

theorem attrOf_create_sequence_id (i : ℤ) (nm sc : String) :
    attrOf (create_sequence i nm sc) "ID" = intStr i := rfl

theorem attrOf_rowSeqElem_id (sn cat : String) (values : List ValueItem) (sid : String)
    (cid : ℤ) (row : StructRow) :
    attrOf (rowSeqElem sn cat values sid cid row) "ID" = intStr cid := by
  unfold rowSeqElem
  by_cases heff : effectNameOf values row.showpart cat = "" <;>
    simp [heff, attrOf_create_step, attrOf_create_sequence_id]

theorem idRange_succ (n : ℤ) (k : ℕ) :
    idRange n (k + 1) = intStr n :: idRange (n + 1) k := rfl

theorem idRange_length (n : ℤ) : ∀ k, (idRange n k).length = k := by
  intro k
  induction k generalizing n with
  | zero => rfl
  | succ k ih => simp [idRange_succ, ih]

/-- The list `idRange start len` lists the decimal strings of `start`, `start + 1`,
..., `start + len - 1` in order. -/
theorem idRange_getD (n : ℤ) : ∀ k i, i < k → (idRange n k).getD i "" = intStr (n + i) := by
  intro k
  induction k generalizing n with
  | zero => omega
  | succ k ih =>
    intro i hi
    cases i with
    | zero => simp [idRange_succ]
    | succ i =>
      rw [idRange_succ]
      simp only [List.getD_cons_succ]
      rw [ih (n + 1) i (by omega)]
      congr 1
      push_cast
      ring

theorem idRange_mem (x : String) : ∀ k (n : ℤ), x ∈ idRange n k →
    ∃ i : ℕ, i < k ∧ x = intStr (n + i) := by
  intro k
  induction k with
  | zero => intro n h; simp [idRange] at h
  | succ k ih =>
    intro n h
    rw [idRange_succ] at h
    rcases List.mem_cons.mp h with h | h
    · exact ⟨0, by omega, by simpa using h⟩
    · obtain ⟨i, hik, hx⟩ := ih (n + 1) h
      refine ⟨i + 1, by omega, ?_⟩
      rw [hx]
      congr 1
      push_cast
      ring

theorem idRange_nodup (n : ℤ) : ∀ k, (idRange n k).Nodup := by
  intro k
  induction k generalizing n with
  | zero => exact List.nodup_nil
  | succ k ih =>
    rw [idRange_succ]
    refine List.nodup_cons.mpr ⟨?_, ih (n + 1)⟩
    intro hmem
    obtain ⟨i, hik, heq⟩ := idRange_mem (intStr n) k (n + 1) hmem
    have := intStr_injective heq
    omega

/-- Step equations for `processRows`. -/
theorem processRows_nil (sn cat : String) (values : List ValueItem) (sid : String)
    (st : RowState) : processRows sn cat values sid [] st = (st, none) := rfl

theorem processRows_cons_error (sn cat : String) (values : List ValueItem) (sid : String)
    (row : StructRow) (rest : List StructRow) (st : RowState) (er : String)
    (hcalc : calculate_start_time st.start_time row.signature row.bpm row.num_bars
        row.transition st.previous_bpm = Except.error er) :
    processRows sn cat values sid (row :: rest) st
      = ({ st with seqs := st.seqs ++ [rowSeqElem sn cat values sid st.current_id row],
                   sfs := st.sfs ++ [rowSfElem st.current_id st.start_time row] }, some er) := by
  rw [processRows, hcalc]

theorem processRows_cons_ok (sn cat : String) (values : List ValueItem) (sid : String)
    (row : StructRow) (rest : List StructRow) (st : RowState) (t : ℤ)
    (hcalc : calculate_start_time st.start_time row.signature row.bpm row.num_bars
        row.transition st.previous_bpm = Except.ok t) :
    processRows sn cat values sid (row :: rest) st
      = processRows sn cat values sid rest
          ⟨st.current_id + 1, t, some row.bpm,
           st.seqs ++ [rowSeqElem sn cat values sid st.current_id row],
           st.sfs ++ [rowSfElem st.current_id st.start_time row]⟩ := by
  rw [processRows, hcalc]

/-- When the row loop finishes without an exception, the appended sequences
carry the consecutive ids starting at the incoming counter, and the counter
advances by the number of rows. -/
theorem processRows_ids (sn cat : String) (values : List ValueItem) (sid : String) :
    ∀ (rows : List StructRow) (st st' : RowState),
      processRows sn cat values sid rows st = (st', none) →
      st'.seqs.map (fun e => attrOf e "ID")
          = st.seqs.map (fun e => attrOf e "ID") ++ idRange st.current_id rows.length
        ∧ st'.current_id = st.current_id + rows.length := by
  intro rows
  induction rows with
  | nil =>
    intro st st' h
    rw [processRows_nil] at h
    injection h with h1 h2
    subst h1
    simp [idRange]
  | cons row rest ih =>
    intro st st' h
    cases hcalc : calculate_start_time st.start_time row.signature row.bpm row.num_bars
        row.transition st.previous_bpm with
    | error er =>
      rw [processRows_cons_error sn cat values sid row rest st er hcalc] at h
      injection h with h1 h2
      simp at h2
    | ok t =>
      rw [processRows_cons_ok sn cat values sid row rest st t hcalc] at h
      obtain ⟨hmap, hid⟩ := ih _ _ h
      constructor
      · rw [hmap]
        simp only [List.map_append, List.map_cons, List.map_nil, List.length_cons]
        rw [attrOf_rowSeqElem_id, idRange_succ, List.append_assoc]
        rfl
      · rw [hid]
        simp only [List.length_cons]
        push_cast
        ring

theorem rowSeqElem_shaped (sn cat : String) (values : List ValueItem) (sid : String)
    (cid : ℤ) (row : StructRow) : SeqShaped (rowSeqElem sn cat values sid cid row) := by
  by_cases heff : effectNameOf values row.showpart cat = ""
  · refine ⟨cid, sn ++ "_" ++ cat ++ "_" ++ row.showpart, sid, "",
      effectSpeedOf values row.showpart cat, effectColorOf values row.showpart cat,
      Or.inr ?_⟩
    rw [rowSeqElem]
    simp [heff]
  · refine ⟨cid, sn ++ "_" ++ cat ++ "_" ++ row.showpart, sid, "", "", "", Or.inl ?_⟩
    rw [rowSeqElem]
    simp [heff]

/-- Every element the row loop leaves in `seqs` — also when it stops on an
exception — is either an incoming element or a sequence element. -/
theorem processRows_mem (sn cat : String) (values : List ValueItem) (sid : String) :
    ∀ (rows : List StructRow) (st : RowState) (e : Elem),
      e ∈ (processRows sn cat values sid rows st).1.seqs →
      e ∈ st.seqs ∨ SeqShaped e := by
  intro rows
  induction rows with
  | nil => intro st e h; rw [processRows_nil] at h; exact Or.inl h
  | cons row rest ih =>
    intro st e h
    cases hcalc : calculate_start_time st.start_time row.signature row.bpm row.num_bars
        row.transition st.previous_bpm with
    | error er =>
      rw [processRows_cons_error sn cat values sid row rest st er hcalc] at h
      simp only [List.mem_append, List.mem_singleton] at h
      rcases h with h | h
      · exact Or.inl h
      · exact Or.inr (h ▸ rowSeqElem_shaped sn cat values sid st.current_id row)
    | ok t =>
      rw [processRows_cons_ok sn cat values sid row rest st t hcalc] at h
      rcases ih _ _ h with h' | h'
      · simp only [List.mem_append, List.mem_singleton] at h'
        rcases h' with h' | h'
        · exact Or.inl h'
        · exact Or.inr (h' ▸ rowSeqElem_shaped sn cat values sid st.current_id row)
      · exact Or.inr h'

theorem attrOf_rowSfElem_time (cid t : ℤ) (row : StructRow) :
    attrOf (rowSfElem cid t row) "StartTime" = intStr t := rfl

theorem attrOf_rowSfElem_color (cid t : ℤ) (row : StructRow) :
    attrOf (rowSfElem cid t row) "Color" = row.color := rfl

theorem hasStep_rowSeqElem (sn cat : String) (values : List ValueItem) (sid : String)
    (cid : ℤ) (row : StructRow) :
    hasStep (rowSeqElem sn cat values sid cid row)
      ↔ effectNameOf values row.showpart cat = "" := by
  rw [rowSeqElem]
  by_cases heff : effectNameOf values row.showpart cat = "" <;>
    simp [heff, hasStep, create_step, create_sequence, speedElem]

/-- The sequences emitted by an exception-free row loop run `create_step`
exactly on the rows whose looked-up effect name is empty. -/
theorem processRows_steps (sn cat : String) (values : List ValueItem) (sid : String) :
    ∀ (rows : List StructRow) (st st' : RowState),
      processRows sn cat values sid rows st = (st', none) →
      ∃ l, st'.seqs = st.seqs ++ l ∧ l.length = rows.length ∧
        ∀ i, i < rows.length →
          (hasStep (l.getD i defaultElem)
            ↔ effectNameOf values ((rows.getD i defaultRow).showpart) cat = "") := by
  intro rows
  induction rows with
  | nil =>
    intro st st' h
    rw [processRows_nil] at h
    injection h with h1 h2
    subst h1
    exact ⟨[], by simp, by simp, by intro i hi; simp at hi⟩
  | cons row rest ih =>
    intro st st' h
    cases hcalc : calculate_start_time st.start_time row.signature row.bpm row.num_bars
        row.transition st.previous_bpm with
    | error er =>
      rw [processRows_cons_error sn cat values sid row rest st er hcalc] at h
      injection h with h1 h2
      simp at h2
    | ok t =>
      rw [processRows_cons_ok sn cat values sid row rest st t hcalc] at h
      obtain ⟨l, hl, hlen, hsteps⟩ := ih _ _ h
      refine ⟨rowSeqElem sn cat values sid st.current_id row :: l, ?_, by simp [hlen], ?_⟩
      · rw [hl]
        simp
      · intro i hi
        cases i with
        | zero =>
          simpa using hasStep_rowSeqElem sn cat values sid st.current_id row
        | succ i =>
          simp only [List.getD_cons_succ]
          exact hsteps i (by simpa using hi)

/-- The `ShowFunction` rows emitted by an exception-free, well-formed row
loop: one per structure row in order (each carrying its row's color), with
decimal start-time strings whose underlying integers are non-decreasing,
starting at the incoming start time, and not advancing across a row with
zero bars. -/
theorem processRows_times (sn cat : String) (values : List ValueItem) (sid : String) :
    ∀ (rows : List StructRow) (st : RowState),
      (∀ r ∈ rows, RowWF r) →
      (st.previous_bpm = none ∨ ∃ p, st.previous_bpm = some p ∧ 0 < p) →
      ∃ st' ts,
        processRows sn cat values sid rows st = (st', none) ∧
        (∃ l, st'.sfs = st.sfs ++ l
          ∧ l.map (fun e => attrOf e "StartTime") = ts.map intStr
          ∧ l.map (fun e => attrOf e "Color") = rows.map (fun r => r.color))
        ∧ ts.length = rows.length
        ∧ List.Chain' (· ≤ ·) (ts ++ [st'.start_time])
        ∧ (ts ++ [st'.start_time]).getD 0 0 = st.start_time
        ∧ ∀ i, i < rows.length → (rows.getD i defaultRow).num_bars = 0 →
            (ts ++ [st'.start_time]).getD (i + 1) 0 = (ts ++ [st'.start_time]).getD i 0 := by
  intro rows
  induction rows with
  | nil =>
    intro st hwf hprev
    refine ⟨st, [], processRows_nil sn cat values sid st, ⟨[], by simp, by simp, by simp⟩,
      by simp, by simp, by simp, ?_⟩
    intro i hi
    simp at hi
  | cons row rest ih =>
    intro st hwf hprev
    have hrow : RowWF row := hwf row (List.mem_cons_self row rest)
    obtain ⟨t, hcalc, hle, hzero⟩ :=
      calc_wf_ok st.start_time row st.previous_bpm hrow hprev
    have hrest : ∀ r ∈ rest, RowWF r := fun r hr => hwf r (List.mem_cons_of_mem row hr)
    obtain ⟨st', ts, heq, ⟨l, hsfs, htime, hcolor⟩, hlen, hchain, hhead, hbars⟩ :=
      ih ⟨st.current_id + 1, t, some row.bpm,
          st.seqs ++ [rowSeqElem sn cat values sid st.current_id row],
          st.sfs ++ [rowSfElem st.current_id st.start_time row]⟩
        hrest (Or.inr ⟨row.bpm, rfl, hrow.2.1⟩)
    refine ⟨st', st.start_time :: ts, ?_, ?_, ?_, ?_, ?_, ?_⟩
    · rw [processRows_cons_ok sn cat values sid row rest st t hcalc]
      exact heq
    · refine ⟨rowSfElem st.current_id st.start_time row :: l, ?_, ?_, ?_⟩
      · rw [hsfs]; simp
      · simp [attrOf_rowSfElem_time, htime]
      · simp [attrOf_rowSfElem_color, hcolor]
    · simp [hlen]
    · rw [List.cons_append]
      rcases hne : ts ++ [st'.start_time] with _ | ⟨z, zs⟩
      · exact absurd hne (by simp)
      · rw [List.chain'_cons]
        constructor
        · have : z = t := by
            have := hhead
            rw [hne] at this
            simpa using this
          rw [this]
          exact hle
        · rw [← hne]
          exact hchain
    · simp
    · intro i hi hbar
      cases i with
      | zero =>
        have hb0 : row.num_bars = 0 := by simpa using hbar
        have ht : t = st.start_time := hzero hb0
        have h1 : ((st.start_time :: ts) ++ [st'.start_time]).getD 1 0
            = (ts ++ [st'.start_time]).getD 0 0 := by simp
        rw [h1, hhead, ht]
        simp
      | succ i =>
        have hi' : i < rest.length := by simpa using hi
        have hbar' : (rest.getD i defaultRow).num_bars = 0 := by simpa using hbar
        have := hbars i hi' hbar'
        simpa using this

/-! ## Lemmas about the category loop -/

theorem idRange_append (n : ℤ) : ∀ (a : ℕ) (b : ℕ),
    idRange n a ++ idRange (n + a) b = idRange n (a + b) := by
  intro a
  induction a generalizing n with
  | zero => intro b; simp [idRange]
  | succ a ih =>
    intro b
    rw [idRange_succ, List.cons_append]
    have harg : n + ((a:ℕ) + 1 : ℕ) = (n + 1) + (a:ℕ) := by push_cast; ring
    rw [harg, ih (n + 1) b]
    have : (a + 1) + b = (a + b) + 1 := by omega
    rw [this, idRange_succ]

theorem attrOf_mkScene_id (sn : String) (tid cid : ℤ) (groups : List GroupRow)
    (cat : String) : attrOf (mkScene sn tid cid groups cat) "ID" = intStr cid := rfl

theorem attrOf_mkScene_type (sn : String) (tid cid : ℤ) (groups : List GroupRow)
    (cat : String) : attrOf (mkScene sn tid cid groups cat) "Type" = "Scene" := rfl

theorem seqShaped_type {e : Elem} (h : SeqShaped e) : attrOf e "Type" = "Sequence" := by
  obtain ⟨i, nm, sid, en, sp, co, h | h⟩ := h <;> rw [h] <;> rfl

theorem seqShaped_tag {e : Elem} (h : SeqShaped e) : e.tag = "Function" := by
  obtain ⟨i, nm, sid, en, sp, co, h | h⟩ := h <;> rw [h] <;> rfl

theorem sceneFixtureVals_mkScene (sn : String) (tid cid : ℤ) (groups : List GroupRow)
    (cat : String) :
    sceneFixtureVals (mkScene sn tid cid groups cat) = fixtureValElems groups cat := by
  unfold sceneFixtureVals mkScene
  rw [List.filter_append]
  have h1 : ([speedElem, ⟨"ChannelGroupsVal", [], "0,0", []⟩] : List Elem).filter
      (fun c => c.tag = "FixtureVal") = [] := rfl
  rw [h1, List.nil_append]
  apply List.filter_eq_self.mpr
  intro e he
  unfold fixtureValElems at he
  obtain ⟨g, hg, rfl⟩ := List.mem_map.mp he
  simp [mkFixtureVal]

/-- Step equations for `processCats`. -/
theorem processCats_nil (sn : String) (groups : List GroupRow) (rows : List StructRow)
    (values : List ValueItem) (st : CatState) :
    processCats sn groups rows values [] st = (st, none) := rfl

theorem processCats_cons_none (sn : String) (groups : List GroupRow)
    (rows : List StructRow) (values : List ValueItem) (rest : List (Option String))
    (st : CatState) :
    processCats sn groups rows values (none :: rest) st
      = processCats sn groups rows values rest st := rfl

theorem processCats_cons_skip (sn : String) (groups : List GroupRow)
    (rows : List StructRow) (values : List ValueItem) (rest : List (Option String))
    (st : CatState) :
    processCats sn groups rows values (some "None" :: rest) st
      = processCats sn groups rows values rest st := by
  rw [processCats]
  simp

theorem processCats_cons_keep_ok (sn : String) (groups : List GroupRow)
    (rows : List StructRow) (values : List ValueItem) (cat : String)
    (rest : List (Option String)) (st : CatState) (rs : RowState)
    (hcat : ¬ (cat = "None"))
    (h : processRows sn cat values (intStr st.current_id) rows
        ⟨st.current_id + 1, 0, none, [], []⟩ = (rs, none)) :
    processCats sn groups rows values (some cat :: rest) st
      = processCats sn groups rows values rest
          ⟨rs.current_id, st.track_id + 1,
           st.tracks ++ [trackElem cat st.track_id st.current_id rs.sfs],
           st.rootFuncs ++ [mkScene sn st.track_id st.current_id groups cat] ++ rs.seqs⟩ := by
  rw [processCats]
  simp only [if_neg hcat, h]
  rfl

theorem processCats_cons_keep_err (sn : String) (groups : List GroupRow)
    (rows : List StructRow) (values : List ValueItem) (cat : String)
    (rest : List (Option String)) (st : CatState) (rs : RowState) (er : String)
    (hcat : ¬ (cat = "None"))
    (h : processRows sn cat values (intStr st.current_id) rows
        ⟨st.current_id + 1, 0, none, [], []⟩ = (rs, some er)) :
    processCats sn groups rows values (some cat :: rest) st
      = (⟨rs.current_id, st.track_id,
          st.tracks ++ [trackElem cat st.track_id st.current_id rs.sfs],
          st.rootFuncs ++ [mkScene sn st.track_id st.current_id groups cat] ++ rs.seqs⟩,
         some er) := by
  rw [processCats]
  simp only [if_neg hcat, h]
  rfl

/-- Exception-free category loop: the root Functions it appends carry the
consecutive ids starting at the incoming counter, one per kept category for
its Scene followed by one per structure row for its Sequences, and the
counter advances accordingly. -/
theorem processCats_ids (sn : String) (groups : List GroupRow) (rows : List StructRow)
    (values : List ValueItem) :
    ∀ (cats : List (Option String)) (st st' : CatState),
      processCats sn groups rows values cats st = (st', none) →
      st'.rootFuncs.map (fun e => attrOf e "ID")
          = st.rootFuncs.map (fun e => attrOf e "ID")
            ++ idRange st.current_id ((catsQual cats).length * (rows.length + 1))
        ∧ st'.current_id = st.current_id + (catsQual cats).length * (rows.length + 1) := by
  intro cats
  induction cats with
  | nil =>
    intro st st' h
    rw [processCats_nil] at h
    injection h with h1 h2
    subst h1
    simp [catsQual, idRange]
  | cons cat rest ih =>
    intro st st' h
    match cat with
    | none =>
      rw [processCats_cons_none] at h
      simpa [catsQual] using ih st st' h
    | some c =>
      by_cases hc : c = "None"
      · subst hc
        rw [processCats_cons_skip] at h
        simpa [catsQual] using ih st st' h
      · rcases hrs : processRows sn c values (intStr st.current_id) rows
            ⟨st.current_id + 1, 0, none, [], []⟩ with ⟨rs, err⟩
        cases err with
        | some er =>
          rw [processCats_cons_keep_err sn groups rows values c rest st rs er hc hrs] at h
          injection h with h1 h2
          simp at h2
        | none =>
          rw [processCats_cons_keep_ok sn groups rows values c rest st rs hc hrs] at h
          obtain ⟨hseq, hcid⟩ := processRows_ids sn c values (intStr st.current_id) rows
            ⟨st.current_id + 1, 0, none, [], []⟩ rs hrs
          simp only [List.map_nil, List.nil_append] at hseq hcid
          obtain ⟨hmap, hid⟩ := ih _ _ h
          simp only at hmap hid
          have hquallen : (catsQual (some c :: rest)).length
              = (catsQual rest).length + 1 := by
            simp [catsQual, hc]
          have step1 : List.map (fun e => attrOf e "ID")
              (st.rootFuncs ++ [mkScene sn st.track_id st.current_id groups c] ++ rs.seqs)
              = List.map (fun e => attrOf e "ID") st.rootFuncs
                ++ idRange st.current_id (rows.length + 1) := by
            simp only [List.map_append, List.map_cons, List.map_nil, attrOf_mkScene_id]
            rw [hseq, idRange_succ]
            simp [List.append_assoc]
          have harg : st.current_id + 1 + (rows.length : ℤ)
              = st.current_id + ((rows.length + 1 : ℕ) : ℤ) := by push_cast; ring
          constructor
          · rw [hmap, step1, hcid, harg, List.append_assoc, idRange_append, hquallen]
            congr 2
            ring
          · rw [hid, hcid, hquallen]
            push_cast
            ring

theorem attrOf_trackElem_name (cat : String) (tid cid : ℤ) (sfs : List Elem) :
    attrOf (trackElem cat tid cid sfs) "Name" = upperStr cat := rfl

theorem attrOf_trackElem_id (cat : String) (tid cid : ℤ) (sfs : List Elem) :
    attrOf (trackElem cat tid cid sfs) "ID" = intStr tid := rfl

/-- Sequences appended by the row loop are filtered out of `scenesOf`. -/
theorem scenesOf_append_seqs (a : List Elem) (rs : List Elem)
    (hseqs : ∀ e ∈ rs, SeqShaped e) : scenesOf (a ++ rs) = scenesOf a := by
  unfold scenesOf
  rw [List.filter_append]
  have : rs.filter (fun e => attrOf e "Type" = "Scene") = [] := by
    rw [List.filter_eq_nil_iff]
    intro e he
    have := seqShaped_type (hseqs e he)
    simp [this]
  rw [this, List.append_nil]

/-- Exception-free category loop: one Scene per kept category in order, whose
`FixtureVal` children are exactly the matching membership rows, and one Track
per kept category in order, named by the uppercased category. -/
theorem processCats_scenes (sn : String) (groups : List GroupRow) (rows : List StructRow)
    (values : List ValueItem) :
    ∀ (cats : List (Option String)) (st st' : CatState),
      processCats sn groups rows values cats st = (st', none) →
      ((scenesOf st'.rootFuncs).map sceneFixtureVals
          = (scenesOf st.rootFuncs).map sceneFixtureVals
            ++ (catsQual cats).map (fixtureValElems groups))
        ∧ st'.tracks.map (fun e => attrOf e "Name")
            = st.tracks.map (fun e => attrOf e "Name") ++ (catsQual cats).map upperStr := by
  intro cats
  induction cats with
  | nil =>
    intro st st' h
    rw [processCats_nil] at h
    injection h with h1 h2
    subst h1
    simp [catsQual]
  | cons cat rest ih =>
    intro st st' h
    match cat with
    | none =>
      rw [processCats_cons_none] at h
      simpa [catsQual] using ih st st' h
    | some c =>
      by_cases hc : c = "None"
      · subst hc
        rw [processCats_cons_skip] at h
        simpa [catsQual] using ih st st' h
      · rcases hrs : processRows sn c values (intStr st.current_id) rows
            ⟨st.current_id + 1, 0, none, [], []⟩ with ⟨rs, err⟩
        cases err with
        | some er =>
          rw [processCats_cons_keep_err sn groups rows values c rest st rs er hc hrs] at h
          injection h with h1 h2
          simp at h2
        | none =>
          rw [processCats_cons_keep_ok sn groups rows values c rest st rs hc hrs] at h
          obtain ⟨hsc, htr⟩ := ih _ _ h
          simp only at hsc htr
          have hshape : ∀ e ∈ rs.seqs, SeqShaped e := by
            intro e he
            have := processRows_mem sn c values (intStr st.current_id) rows
              ⟨st.current_id + 1, 0, none, [], []⟩ e (by rw [hrs]; exact he)
            simpa using this
          have hqual : catsQual (some c :: rest) = c :: catsQual rest := by
            simp [catsQual, hc]
          constructor
          · rw [hsc, scenesOf_append_seqs
              (st.rootFuncs ++ [mkScene sn st.track_id st.current_id groups c]) rs.seqs hshape]
            unfold scenesOf
            rw [List.filter_append]
            have hkeep : ([mkScene sn st.track_id st.current_id groups c] : List Elem).filter
                (fun e => attrOf e "Type" = "Scene")
                = [mkScene sn st.track_id st.current_id groups c] := by
              simp [attrOf_mkScene_type]
            rw [hkeep, hqual]
            simp [scenesOf, sceneFixtureVals_mkScene]
          · rw [htr, hqual]
            simp [attrOf_trackElem_name]

/-- Every root Function the category loop leaves behind — also on an
exception — is an incoming element, a Scene of some category, or a
sequence element. -/
theorem processCats_mem (sn : String) (groups : List GroupRow) (rows : List StructRow)
    (values : List ValueItem) :
    ∀ (cats : List (Option String)) (st : CatState) (e : Elem),
      e ∈ (processCats sn groups rows values cats st).1.rootFuncs →
      e ∈ st.rootFuncs ∨ (∃ tid cid cat, e = mkScene sn tid cid groups cat) ∨ SeqShaped e := by
  intro cats
  induction cats with
  | nil => intro st e h; rw [processCats_nil] at h; exact Or.inl h
  | cons cat rest ih =>
    intro st e h
    match cat with
    | none =>
      rw [processCats_cons_none] at h
      exact ih st e h
    | some c =>
      by_cases hc : c = "None"
      · subst hc
        rw [processCats_cons_skip] at h
        exact ih st e h
      · rcases hrs : processRows sn c values (intStr st.current_id) rows
            ⟨st.current_id + 1, 0, none, [], []⟩ with ⟨rs, err⟩
        have hdecomp : ∀ e',
            e' ∈ st.rootFuncs ++ [mkScene sn st.track_id st.current_id groups c] ++ rs.seqs →
            e' ∈ st.rootFuncs ∨ (∃ tid cid cat, e' = mkScene sn tid cid groups cat)
              ∨ SeqShaped e' := by
          intro e' he'
          simp only [List.append_assoc, List.mem_append, List.mem_singleton] at he'
          rcases he' with he' | he' | he'
          · exact Or.inl he'
          · exact Or.inr (Or.inl ⟨st.track_id, st.current_id, c, he'⟩)
          · have := processRows_mem sn c values (intStr st.current_id) rows
              ⟨st.current_id + 1, 0, none, [], []⟩ e' (by rw [hrs]; exact he')
            simpa using Or.inr (Or.inr (by simpa using this))
        cases err with
        | some er =>
          rw [processCats_cons_keep_err sn groups rows values c rest st rs er hc hrs] at h
          exact hdecomp e h
        | none =>
          rw [processCats_cons_keep_ok sn groups rows values c rest st rs hc hrs] at h
          rcases ih _ _ h with h' | h'
          · exact hdecomp e h'
          · exact Or.inr h'

/-! ## Lemmas about `create_tracks` and `create_shows` -/

theorem mkScene_tag (sn : String) (tid cid : ℤ) (groups : List GroupRow) (cat : String) :
    (mkScene sn tid cid groups cat).tag = "Function" := rfl

theorem functionIds_append (a b : List Elem) :
    functionIds (a ++ b) = functionIds a ++ functionIds b := by
  simp [functionIds, List.filter_append]

theorem functionIds_all_fn (l : List Elem) (h : ∀ e ∈ l, e.tag = "Function") :
    functionIds l = l.map (fun e => attrOf e "ID") := by
  unfold functionIds
  rw [List.filter_eq_self.mpr]
  intro e he
  simp [h e he]

theorem create_tracks_no_groups (hs : Bool) (rows : List StructRow)
    (values : List ValueItem) (fid : Option ℤ) (name : String) :
    create_tracks none hs rows values fid name = ⟨[], [], none, none⟩ := rfl

theorem create_tracks_eq_ok (groups : List GroupRow) (rows : List StructRow)
    (values : List ValueItem) (fid : ℤ) (name : String) (cst : CatState)
    (hcats : processCats name groups rows values
        (uniqueFirst (groups.map (fun g => readCategory g.category)))
        ⟨fid + 1, 0, [], []⟩ = (cst, none)) :
    create_tracks (some groups) true rows values (some fid) name
      = ⟨cst.tracks, cst.rootFuncs, some cst.current_id, none⟩ := by
  rw [create_tracks]
  simp only [Bool.true_eq_false, if_neg (by simp : ¬False), hcats]

theorem create_tracks_eq_err (groups : List GroupRow) (rows : List StructRow)
    (values : List ValueItem) (fid : ℤ) (name : String) (cst : CatState) (er : String)
    (hcats : processCats name groups rows values
        (uniqueFirst (groups.map (fun g => readCategory g.category)))
        ⟨fid + 1, 0, [], []⟩ = (cst, some er)) :
    create_tracks (some groups) true rows values (some fid) name
      = ⟨cst.tracks, cst.rootFuncs, none, some er⟩ := by
  rw [create_tracks]
  simp only [Bool.true_eq_false, if_neg (by simp : ¬False), hcats]

/-- Running `create_tracks` on an existing groups file and an integer function id,
finishing without an exception: the Scene/Sequence Functions appended to the
root carry the consecutive ids following the show's own id, the returned next
id continues right after them, and all appended root elements are
`Function` elements. -/
theorem create_tracks_ok (groups : List GroupRow) (rows : List StructRow)
    (values : List ValueItem) (fid : ℤ) (name : String)
    (herr : (create_tracks (some groups) true rows values (some fid) name).error = none) :
    (create_tracks (some groups) true rows values (some fid) name).retNextId
        = some (fid + 1 + ((qualCats groups).length * (rows.length + 1) : ℕ))
      ∧ (create_tracks (some groups) true rows values (some fid) name).rootFuncs.map
            (fun e => attrOf e "ID")
          = idRange (fid + 1) ((qualCats groups).length * (rows.length + 1))
      ∧ ∀ e ∈ (create_tracks (some groups) true rows values (some fid) name).rootFuncs,
          e.tag = "Function" := by
  rcases hcats : processCats name groups rows values
      (uniqueFirst (groups.map (fun g => readCategory g.category)))
      ⟨fid + 1, 0, [], []⟩ with ⟨cst, err⟩
  cases err with
  | some er =>
    rw [create_tracks_eq_err groups rows values fid name cst er hcats] at herr
    simp at herr
  | none =>
    rw [create_tracks_eq_ok groups rows values fid name cst hcats]
    obtain ⟨hmap, hcid⟩ := processCats_ids name groups rows values _ _ _ hcats
    simp only [List.map_nil, List.nil_append] at hmap hcid
    refine ⟨?_, ?_, ?_⟩
    · simp only
      rw [hcid]
      rfl
    · simpa [qualCats] using hmap
    · intro e he
      have := processCats_mem name groups rows values _ _ e (by rw [hcats]; exact he)
      simp only [List.not_mem_nil, false_or] at this
      rcases this with ⟨tid, cid, cat, rfl⟩ | h'
      · exact mkScene_tag name tid cid groups cat
      · exact seqShaped_tag h'

/-- Errors only accumulate across `create_shows_aux`. -/
theorem create_shows_aux_errors (groupsFile : Option (List GroupRow)) :
    ∀ (shows : List ShowDir) (st : ShowsState),
      ∃ l, (create_shows_aux groupsFile shows st).errors = st.errors ++ l := by
  intro shows
  induction shows with
  | nil => intro st; exact ⟨[], by simp [create_shows_aux]⟩
  | cons sh rest ih =>
    intro st
    rw [create_shows_aux]
    obtain ⟨l, hl⟩ := ih (create_shows_step groupsFile st sh)
    rw [hl]
    unfold create_shows_step
    by_cases hfiles : (sh.hasSetup ∧ sh.hasStructure ∧ sh.hasValues : Prop)
    · rw [if_pos hfiles]
      cases herr2 : (create_tracks groupsFile sh.hasStructure sh.rows sh.values
          st.show_id sh.name).error with
      | some e => simp only [herr2]; exact ⟨[e] ++ l, by simp⟩
      | none => simp only [herr2]; exact ⟨l, by simp⟩
    · rw [if_neg hfiles]
      exact ⟨l, by simp⟩

/-- Step equations for `create_shows_aux`. -/
theorem create_shows_aux_nil (groupsFile : Option (List GroupRow)) (st : ShowsState) :
    create_shows_aux groupsFile [] st = st := rfl

theorem create_shows_aux_cons (groupsFile : Option (List GroupRow)) (sh : ShowDir)
    (rest : List ShowDir) (st : ShowsState) :
    create_shows_aux groupsFile (sh :: rest) st
      = create_shows_aux groupsFile rest (create_shows_step groupsFile st sh) := rfl

/-- An error-free run of `create_shows_aux` over a batch whose seed is the
integer `n` appends Function elements carrying exactly the consecutive
decimal ids `n`, `n + 1`, ... in order, and ends with the seed advanced past
them. -/
theorem create_shows_aux_ids (groups : List GroupRow) :
    ∀ (shows : List ShowDir) (st : ShowsState) (n : ℤ),
      st.show_id = some n →
      (create_shows_aux (some groups) shows st).errors = st.errors →
      ∃ k : ℕ, (create_shows_aux (some groups) shows st).show_id = some (n + k)
        ∧ functionIds (create_shows_aux (some groups) shows st).root
            = functionIds st.root ++ idRange n k := by
  intro shows
  induction shows with
  | nil =>
    intro st n hn _
    refine ⟨0, ?_, by simp [create_shows_aux_nil, idRange]⟩
    rw [create_shows_aux_nil, hn]
    simp
  | cons sh rest ih =>
    intro st n hn herr
    rw [create_shows_aux_cons] at herr ⊢
    by_cases hfiles : (sh.hasSetup ∧ sh.hasStructure ∧ sh.hasValues : Prop)
    · have hstructure : sh.hasStructure = true := by
        have := hfiles.2.1
        simpa using this
      have hstep0 : create_shows_step (some groups) st sh
          = (let tr := create_tracks (some groups) sh.hasStructure sh.rows sh.values
              st.show_id sh.name
             let functionElem : Elem :=
               ⟨"Function",
                [("ID", showIdAttr st.show_id), ("Type", "Show"), ("Name", sh.name)],
                "", [timeDivision sh] ++ tr.trackElems⟩
             match tr.error with
             | some e =>
               { st with root := st.root ++ [functionElem] ++ tr.rootFuncs,
                         errors := st.errors ++ [e] }
             | none =>
               { st with root := st.root ++ [functionElem] ++ tr.rootFuncs,
                         show_id := tr.retNextId }) := by
        rw [create_shows_step, if_pos hfiles]
      cases herr2 : (create_tracks (some groups) sh.hasStructure sh.rows sh.values
          st.show_id sh.name).error with
      | some e =>
        exfalso
        have hstep : (create_shows_step (some groups) st sh).errors = st.errors ++ [e] := by
          rw [hstep0]
          simp only [herr2]
        obtain ⟨l, hl⟩ := create_shows_aux_errors (some groups) rest
          (create_shows_step (some groups) st sh)
        rw [hl, hstep] at herr
        have := congrArg List.length herr
        simp at this
      | none =>
        rw [hn, hstructure] at herr2
        obtain ⟨hnext, hids, htags⟩ := create_tracks_ok groups sh.rows sh.values n sh.name herr2
        set K : ℕ := (qualCats groups).length * (sh.rows.length + 1) with hK
        have hstep : create_shows_step (some groups) st sh
            = { st with
                root := st.root
                  ++ [⟨"Function",
                       [("ID", showIdAttr st.show_id), ("Type", "Show"), ("Name", sh.name)],
                       "", [timeDivision sh]
                         ++ (create_tracks (some groups) true sh.rows sh.values (some n)
                              sh.name).trackElems⟩]
                  ++ (create_tracks (some groups) true sh.rows sh.values (some n)
                       sh.name).rootFuncs,
                show_id := some (n + 1 + (K : ℤ)) } := by
          rw [create_shows_step, if_pos hfiles, hn, hstructure]
          simp only [herr2, hnext]
        rw [hstep] at herr ⊢
        obtain ⟨k', hk'1, hk'2⟩ := ih _ (n + 1 + (K : ℤ)) rfl herr
        refine ⟨1 + K + k', ?_, ?_⟩
        · rw [hk'1]
          congr 1
          push_cast
          ring
        · rw [hk'2]
          simp only [functionIds_append]
          have hfn : functionIds
              [(⟨"Function",
                 [("ID", showIdAttr st.show_id), ("Type", "Show"), ("Name", sh.name)],
                 "", [timeDivision sh]
                   ++ (create_tracks (some groups) true sh.rows sh.values (some n)
                        sh.name).trackElems⟩ : Elem)] = [intStr n] := by
            rw [hn]
            rfl
          rw [hfn, functionIds_all_fn _ htags, hids]
          have hcombine : (([intStr n] : List String)
              ++ (idRange (n + 1) K ++ idRange (n + 1 + (K:ℤ)) k'))
              = idRange n (1 + K + k') := by
            have harg : n + 1 + (K:ℤ) = (n + 1) + ((K:ℕ):ℤ) := by push_cast; ring
            rw [harg, idRange_append]
            rw [show ([intStr n] : List String) ++ idRange (n + 1) (K + k')
                = idRange n ((K + k') + 1) from by rw [idRange_succ]; rfl]
            congr 1
            omega
          simp only [List.append_assoc]
          rw [hcombine]
    · have hstep : create_shows_step (some groups) st sh
          = { st with skipped := st.skipped ++ [sh.name] } := by
        rw [create_shows_step, if_neg hfiles]
      rw [hstep] at herr ⊢
      exact ih _ n hn herr

theorem create_shows_step_no_groups (st : ShowsState) (sh : ShowDir)
    (hfiles : (sh.hasSetup ∧ sh.hasStructure ∧ sh.hasValues : Prop)) :
    create_shows_step none st sh
      = { st with root := st.root ++ [noTracksFn st.show_id sh], show_id := none } := by
  rw [create_shows_step, if_pos hfiles]
  simp only [create_tracks_no_groups]
  simp [noTracksFn]

/-- Once the seed is `None` and the groups file is missing, every remaining
show with complete files is emitted with id attribute `"None"`, no tracks,
and no reported error. -/
theorem create_shows_aux_no_groups :
    ∀ (shows : List ShowDir) (st : ShowsState),
      (∀ sh ∈ shows, (sh.hasSetup ∧ sh.hasStructure ∧ sh.hasValues : Prop)) →
      st.show_id = none →
      create_shows_aux none shows st
        = { st with root := st.root ++ shows.map (noTracksFn none) } := by
  intro shows
  induction shows with
  | nil => intro st _ hsid; rw [create_shows_aux_nil]; simp
  | cons sh rest ih =>
    intro st hfiles hsid
    rw [create_shows_aux_cons,
      create_shows_step_no_groups st sh (hfiles sh (List.mem_cons_self sh rest)), hsid]
    rw [ih _ (fun s hs => hfiles s (List.mem_cons_of_mem sh hs)) rfl]
    simp

theorem functionIds_noTracksFn (sid : Option ℤ) (shows : List ShowDir) :
    functionIds (shows.map (noTracksFn sid)) = shows.map (fun _ => showIdAttr sid) := by
  induction shows with
  | nil => rfl
  | cons sh rest ih =>
    simp only [List.map_cons]
    rw [show (noTracksFn sid sh :: rest.map (noTracksFn sid)) =
        [noTracksFn sid sh] ++ rest.map (noTracksFn sid) from rfl, functionIds_append, ih]
    rfl

/-! ## The claims -/

/-- C1: for every call of `calculate_start_time` with a parsable signature
`numerator/denominator` (both positive), positive bpm, and either an
`"instant"` transition or no previous bpm, the result is
`previous_time + floor((60000 / bpm) * ((numerator * 4) / denominator) * num_bars)`:
a single truncation applied after the full product (the quantities are exact
rationals, which is the real-valued arithmetic of the spec restricted to the
values that occur). -/
theorem claim_C1_instant_formula (previous_time : ℤ) (sig : String) (n d : ℤ)
    (bpm : ℚ) (num_bars : ℕ) (transition : String) (previous_bpm : Option ℚ)
    (hsig : parseSignature sig = some (n, d)) (hn : 0 < n) (hd : 0 < d) (hbpm : 0 < bpm)
    (htr : transition = "instant" ∨ previous_bpm = none) :
    calculate_start_time previous_time sig bpm num_bars transition previous_bpm
      = Except.ok (previous_time
          + ⌊(60000 / bpm) * ((n * 4 : ℚ) / (d : ℚ)) * (num_bars : ℚ)⌋) :=
  calc_instant_eq previous_time sig n d bpm num_bars transition previous_bpm
    hsig hn hd hbpm htr

/-- Witness for C1 at signature `"3/8"`, bpm `140`, `5` bars, instant
transition with a previous bpm present. -/
theorem claim_C1_instant_formula_witness :
    parseSignature "3/8" = some (3, 8) ∧ (0:ℤ) < 3 ∧ (0:ℤ) < 8 ∧ (0:ℚ) < 140
      ∧ calculate_start_time 10 "3/8" 140 5 "instant" (some 90)
          = Except.ok (10 + ⌊(60000 / 140 : ℚ) * ((3 * 4 : ℚ) / (8 : ℚ)) * (5 : ℚ)⌋) := by
  refine ⟨by decide, by norm_num, by norm_num, by norm_num, ?_⟩
  have h := claim_C1_instant_formula 10 "3/8" 3 8 140 5 "instant" (some 90)
    (by decide) (by norm_num) (by norm_num) (by norm_num) (Or.inl rfl)
  convert h using 4

/-- Shared evaluation: the spec's §8 example input actually yields 4000. -/
theorem calc_spec_example_eval :
    calculate_start_time 0 "4/4" 120 2 "instant" none = Except.ok 4000 := by
  rw [calculate_start_time, (by decide : parseSignature "4/4" = some (4, 4))]
  norm_num [pyTruncQ, instantDuration]

/-- C3, counterexample: on signature `"4/4"`, bpm `120`, `num_bars = 2`,
instant transition and previous time `0`, the code does not return the
claimed `1000`. -/
theorem claim_C3_spec_example_counterexample :
    calculate_start_time 0 "4/4" 120 2 "instant" none ≠ Except.ok 1000 := by
  rw [calc_spec_example_eval]
  simp

/-- C3 as amended: the example input returns `4000`, because
`beats_per_bar = (4 * 4) / 4 = 4` and
`milliseconds_per_bar = (60000 / 120) * 4 = 2000`, and `2000 * 2 = 4000`
(the spec's `ms_per_bar = 500` is the per-beat value, not the per-bar one). -/
theorem claim_C3_spec_example :
    calculate_start_time 0 "4/4" 120 2 "instant" none = Except.ok 4000
      ∧ ((4 * 4 : ℚ) / 4 = 4) ∧ ((60000 / 120 : ℚ) * 4 = 2000) :=
  ⟨calc_spec_example_eval, by norm_num, by norm_num⟩

/-- C6: for `previous_bpm = 100`, `bpm = 140`, `num_bars = 4`, signature
`"4/4"` (so `beats_per_bar = (4 * 4) / 4`), the gradual branch's accumulated
duration lies strictly between the instant durations at bpm `140` and at
bpm `100`. -/
theorem claim_C6_gradual_between :
    ((instantDuration 140 ((4 * 4 : ℚ) / 4) 4 : ℚ) : ℝ)
        < gradualTotal 100 140 ((4 * 4 : ℚ) / 4) 4
      ∧ gradualTotal 100 140 ((4 * 4 : ℚ) / 4) 4
        < ((instantDuration 100 ((4 * 4 : ℚ) / 4) 4 : ℚ) : ℝ) := by
  have hbeats : ((4 * 4 : ℚ) / 4 : ℚ) = 4 := by norm_num
  rw [hbeats]
  have hcur : ∀ bar ∈ Finset.range 4,
      currentBpm 100 140 bar 4 = 100 + 40 * (((bar : ℝ) / 4) ^ (0.52 : ℝ)) := by
    intro bar _
    unfold currentBpm
    norm_num
  have hp0 : ∀ bar : ℕ, (0:ℝ) ≤ ((bar : ℝ) / 4) ^ (0.52 : ℝ) := by
    intro bar
    exact Real.rpow_nonneg (by positivity) _
  have hp1 : ∀ bar ∈ Finset.range 4, ((bar : ℝ) / 4) ^ (0.52 : ℝ) < 1 := by
    intro bar hbar
    have hb : bar < 4 := Finset.mem_range.mp hbar
    apply Real.rpow_lt_one (by positivity) _ (by norm_num)
    rw [div_lt_one (by norm_num : (0:ℝ) < 4)]
    exact_mod_cast hb
  constructor
  · have hlhs : ((instantDuration 140 (4 : ℚ) 4 : ℚ) : ℝ)
        = Finset.sum (Finset.range 4) (fun _ => (60000:ℝ) / 140 * 4) := by
      rw [Finset.sum_const, Finset.card_range]
      unfold instantDuration
      push_cast
      ring
    rw [hlhs]
    unfold gradualTotal
    apply Finset.sum_lt_sum_of_nonempty (by simp)
    intro bar hbar
    rw [hcur bar hbar]
    have h0 := hp0 bar
    have h1 := hp1 bar hbar
    have hden_pos : (0:ℝ) < 100 + 40 * (((bar : ℝ) / 4) ^ (0.52 : ℝ)) := by nlinarith
    have hden_lt : 100 + 40 * (((bar : ℝ) / 4) ^ (0.52 : ℝ)) < 140 := by nlinarith
    have hdiv : (60000:ℝ) / 140 < 60000 / (100 + 40 * (((bar : ℝ) / 4) ^ (0.52 : ℝ))) :=
      div_lt_div_of_pos_left (by norm_num) hden_pos hden_lt
    push_cast
    nlinarith
  · have hrhs : ((instantDuration 100 (4 : ℚ) 4 : ℚ) : ℝ)
        = Finset.sum (Finset.range 4) (fun _ => (60000:ℝ) / 100 * 4) := by
      rw [Finset.sum_const, Finset.card_range]
      unfold instantDuration
      push_cast
      ring
    rw [hrhs]
    unfold gradualTotal
    apply Finset.sum_lt_sum
    · intro bar hbar
      rw [hcur bar hbar]
      have h0 := hp0 bar
      have hden_pos : (0:ℝ) < 100 + 40 * (((bar : ℝ) / 4) ^ (0.52 : ℝ)) := by nlinarith
      have hdiv : (60000:ℝ) / (100 + 40 * (((bar : ℝ) / 4) ^ (0.52 : ℝ))) ≤ 60000 / 100 :=
        div_le_div_of_nonneg_left (by norm_num) (by norm_num) (by nlinarith)
      push_cast
      nlinarith
    · refine ⟨1, by simp, ?_⟩
      rw [hcur 1 (by simp)]
      have hpos : (0:ℝ) < (((1:ℕ) : ℝ) / 4) ^ (0.52 : ℝ) :=
        Real.rpow_pos_of_pos (by norm_num) _
      have h0 := hp0 1
      have hden_pos : (0:ℝ) < 100 + 40 * ((((1:ℕ) : ℝ)) / 4) ^ (0.52 : ℝ) := by nlinarith
      have hdiv : (60000:ℝ) / (100 + 40 * ((((1:ℕ):ℝ)) / 4) ^ (0.52 : ℝ)) < 60000 / 100 := by
        apply div_lt_div_of_pos_left (by norm_num) (by norm_num)
        nlinarith
      push_cast at hdiv ⊢
      nlinarith

/-- C2: in a compiled batch (one whose run reported no errors), the Show,
Scene and Sequence Functions carry pairwise distinct ids that are exactly the
decimal strings of the contiguous integers `[0, total)` in allocation order,
where `total` is the final value of the id counter. -/
theorem claim_C2_global_ids (groups : List GroupRow) (shows : List ShowDir)
    (herr : (create_shows (some groups) shows).errors = []) :
    ∃ total : ℕ,
      (create_shows (some groups) shows).show_id = some (total : ℤ)
      ∧ functionIds (create_shows (some groups) shows).root = idRange 0 total
      ∧ (functionIds (create_shows (some groups) shows).root).Nodup
      ∧ (functionIds (create_shows (some groups) shows).root).length = total
      ∧ ∀ i, i < total →
          (functionIds (create_shows (some groups) shows).root).getD i ""
            = intStr (i : ℤ) := by
  obtain ⟨k, hk1, hk2⟩ := create_shows_aux_ids groups shows ⟨[], some 0, [], []⟩ 0 rfl herr
  refine ⟨k, ?_, ?_, ?_, ?_, ?_⟩
  · rw [show create_shows (some groups) shows
        = create_shows_aux (some groups) shows ⟨[], some 0, [], []⟩ from rfl, hk1]
    norm_num
  · rw [show create_shows (some groups) shows
        = create_shows_aux (some groups) shows ⟨[], some 0, [], []⟩ from rfl, hk2]
    rfl
  · rw [show create_shows (some groups) shows
        = create_shows_aux (some groups) shows ⟨[], some 0, [], []⟩ from rfl, hk2]
    exact idRange_nodup 0 k
  · rw [show create_shows (some groups) shows
        = create_shows_aux (some groups) shows ⟨[], some 0, [], []⟩ from rfl, hk2]
    exact idRange_length 0 k
  · intro i hi
    rw [show create_shows (some groups) shows
        = create_shows_aux (some groups) shows ⟨[], some 0, [], []⟩ from rfl, hk2]
    rw [show (functionIds (⟨[], some 0, [], []⟩ : ShowsState).root ++ idRange 0 k : List String)
        = idRange 0 k from rfl]
    rw [idRange_getD 0 k i hi]
    norm_num

/-- Witness for C2: a one-show, one-category batch compiles without errors
and allocates ids 0 (the show) and 1 (its scene). -/
theorem claim_C2_global_ids_witness :
    (create_shows (some [⟨7, "stage", 2⟩])
        [⟨"alpha", true, true, true, "Time", "120", [], []⟩]).errors = []
    ∧ ∃ total : ℕ,
        (create_shows (some [⟨7, "stage", 2⟩])
            [⟨"alpha", true, true, true, "Time", "120", [], []⟩]).show_id = some (total : ℤ)
        ∧ functionIds (create_shows (some [⟨7, "stage", 2⟩])
              [⟨"alpha", true, true, true, "Time", "120", [], []⟩]).root = idRange 0 total
        ∧ (functionIds (create_shows (some [⟨7, "stage", 2⟩])
              [⟨"alpha", true, true, true, "Time", "120", [], []⟩]).root).Nodup
        ∧ (functionIds (create_shows (some [⟨7, "stage", 2⟩])
              [⟨"alpha", true, true, true, "Time", "120", [], []⟩]).root).length = total
        ∧ ∀ i, i < total →
            (functionIds (create_shows (some [⟨7, "stage", 2⟩])
                [⟨"alpha", true, true, true, "Time", "120", [], []⟩]).root).getD i ""
              = intStr (i : ℤ) :=
  ⟨rfl, claim_C2_global_ids [⟨7, "stage", 2⟩]
    [⟨"alpha", true, true, true, "Time", "120", [], []⟩] rfl⟩

/-- C5 as amended: within one track the `ShowFunction` entries are emitted in
structure-row order (one per row, carrying that row's color), their start
times are non-decreasing integers rendered in decimal, the first is the
initial time `0`, and a row with zero bars contributes zero duration whatever
its transition is.  Strict increase does not hold in general (see the
counterexample). -/
theorem claim_C5_order_and_times (sn cat : String) (values : List ValueItem)
    (sid : String) (rows : List StructRow) (cid : ℤ)
    (hwf : ∀ r ∈ rows, RowWF r) :
    ∃ st' ts,
      processRows sn cat values sid rows ⟨cid, 0, none, [], []⟩ = (st', none)
      ∧ st'.sfs.map (fun e => attrOf e "StartTime") = ts.map intStr
      ∧ st'.sfs.map (fun e => attrOf e "Color") = rows.map (fun r => r.color)
      ∧ ts.length = rows.length
      ∧ List.Chain' (· ≤ ·) (ts ++ [st'.start_time])
      ∧ (ts ++ [st'.start_time]).getD 0 0 = 0
      ∧ ∀ i, i < rows.length → (rows.getD i defaultRow).num_bars = 0 →
          (ts ++ [st'.start_time]).getD (i + 1) 0 = (ts ++ [st'.start_time]).getD i 0 := by
  obtain ⟨st', ts, heq, ⟨l, hsfs, htime, hcolor⟩, hlen, hchain, hhead, hbars⟩ :=
    processRows_times sn cat values sid rows ⟨cid, 0, none, [], []⟩ hwf (Or.inl rfl)
  simp only [List.nil_append] at hsfs
  exact ⟨st', ts, heq, hsfs ▸ htime, hsfs ▸ hcolor, hlen, hchain, hhead, hbars⟩

/-- Witness for C5 (amended) on a single well-formed instant row. -/
theorem claim_C5_order_and_times_witness :
    (∀ r ∈ [rowInstantA], RowWF r)
    ∧ ∃ st' ts,
        processRows "alpha" "stage" [] "1" [rowInstantA] ⟨2, 0, none, [], []⟩ = (st', none)
        ∧ st'.sfs.map (fun e => attrOf e "StartTime") = ts.map intStr
        ∧ st'.sfs.map (fun e => attrOf e "Color") = [rowInstantA].map (fun r => r.color)
        ∧ ts.length = [rowInstantA].length
        ∧ List.Chain' (· ≤ ·) (ts ++ [st'.start_time])
        ∧ (ts ++ [st'.start_time]).getD 0 0 = 0
        ∧ ∀ i, i < [rowInstantA].length → ([rowInstantA].getD i defaultRow).num_bars = 0 →
            (ts ++ [st'.start_time]).getD (i + 1) 0 = (ts ++ [st'.start_time]).getD i 0 := by
  have hwf : ∀ r ∈ [rowInstantA], RowWF r := by
    intro r hr
    rw [List.mem_singleton] at hr
    subst hr
    exact ⟨⟨4, 4, by decide, by norm_num, by norm_num⟩, by norm_num [rowInstantA], Or.inl rfl⟩
  exact ⟨hwf, claim_C5_order_and_times "alpha" "stage" [] "1" [rowInstantA] 2 hwf⟩

/-- C5, counterexample to the claim as written: a zero-bar part with a
gradual transition also freezes the start time, which the claimed exception
(`zero bars and instant`) does not cover. -/
theorem claim_C5_strict_increase_counterexample :
    (processRows "alpha" "stage" [] "1" [rowInstantA, rowGradualB, rowInstantC]
        ⟨2, 0, none, [], []⟩).2 = none
    ∧ ((processRows "alpha" "stage" [] "1" [rowInstantA, rowGradualB, rowInstantC]
        ⟨2, 0, none, [], []⟩).1.sfs.map (fun e => attrOf e "StartTime")
        = ["0", "0", "0"])
    ∧ rowGradualB.num_bars = 0 ∧ rowGradualB.transition = "gradual"
    ∧ ¬ claimedStrictIncrease [rowInstantA, rowGradualB, rowInstantC] [0, 0, 0] := by
  have hc0 : calculate_start_time 0 "4/4" (120:ℚ) 0 "instant" none = Except.ok 0 :=
    calc_instant_zero_bars 0 "4/4" 4 4 120 "instant" none (by decide) (by norm_num)
      (by norm_num) (by norm_num) (Or.inl rfl)
  have hc1 : calculate_start_time 0 "4/4" (130:ℚ) 0 "gradual" (some 120) = Except.ok 0 :=
    calc_gradual_zero_bars 0 "4/4" 4 4 130 120 (by decide) (by norm_num)
  have hc2 : calculate_start_time 0 "4/4" (140:ℚ) 0 "instant" (some 130) = Except.ok 0 :=
    calc_instant_zero_bars 0 "4/4" 4 4 140 "instant" (some 130) (by decide) (by norm_num)
      (by norm_num) (by norm_num) (Or.inl rfl)
  have heval : processRows "alpha" "stage" [] "1" [rowInstantA, rowGradualB, rowInstantC]
      ⟨2, 0, none, [], []⟩
      = (⟨5, 0, some 140,
          [rowSeqElem "alpha" "stage" [] "1" 2 rowInstantA,
           rowSeqElem "alpha" "stage" [] "1" 3 rowGradualB,
           rowSeqElem "alpha" "stage" [] "1" 4 rowInstantC],
          [rowSfElem 2 0 rowInstantA, rowSfElem 3 0 rowGradualB,
           rowSfElem 4 0 rowInstantC]⟩, none) := by
    rw [processRows_cons_ok "alpha" "stage" [] "1" rowInstantA [rowGradualB, rowInstantC]
        ⟨2, 0, none, [], []⟩ 0 hc0]
    rw [processRows_cons_ok "alpha" "stage" [] "1" rowGradualB [rowInstantC] _ 0 hc1]
    rw [processRows_cons_ok "alpha" "stage" [] "1" rowInstantC [] _ 0 hc2]
    rfl
  refine ⟨by rw [heval], by rw [heval]; rfl, rfl, rfl, ?_⟩
  intro hcl
  have h1 := hcl 1 (by norm_num)
  simp only [List.getD] at h1
  rcases h1 with h1 | ⟨-, h1⟩
  · simp at h1
  · exact absurd h1 (by decide)

/-- C7: within the row loop, `create_step` is invoked on the newly created
Sequence exactly when the looked-up effect name (default `""` when no
override exists, or when the override lacks an `effect` key) is the empty
string, and never when a non-empty effect name is specified. -/
theorem claim_C7_step_condition (sn cat : String) (values : List ValueItem)
    (sid : String) (rows : List StructRow) (st st' : RowState)
    (h : processRows sn cat values sid rows st = (st', none)) :
    ∃ l, st'.seqs = st.seqs ++ l ∧ l.length = rows.length ∧
      ∀ i, i < rows.length →
        (hasStep (l.getD i defaultElem)
          ↔ effectNameOf values ((rows.getD i defaultRow).showpart) cat = "") :=
  processRows_steps sn cat values sid rows st st' h

/-- Witness for C7: one row with a non-empty override (effect `"rainbow"`),
so the collaborator does not run on its sequence. -/
theorem claim_C7_step_condition_witness :
    processRows "alpha" "stage" [⟨"intro", "stage", some "rainbow", some "2", some "Red"⟩]
        "1" [rowInstantA] ⟨2, 0, none, [], []⟩
      = (⟨3, 0, some 120,
          [rowSeqElem "alpha" "stage"
            [⟨"intro", "stage", some "rainbow", some "2", some "Red"⟩] "1" 2 rowInstantA],
          [rowSfElem 2 0 rowInstantA]⟩, none)
    ∧ ∃ l, (⟨3, 0, some 120,
          [rowSeqElem "alpha" "stage"
            [⟨"intro", "stage", some "rainbow", some "2", some "Red"⟩] "1" 2 rowInstantA],
          [rowSfElem 2 0 rowInstantA]⟩ : RowState).seqs
        = (⟨2, 0, none, [], []⟩ : RowState).seqs ++ l
      ∧ l.length = [rowInstantA].length
      ∧ ∀ i, i < [rowInstantA].length →
          (hasStep (l.getD i defaultElem)
            ↔ effectNameOf [⟨"intro", "stage", some "rainbow", some "2", some "Red"⟩]
                (([rowInstantA].getD i defaultRow).showpart) "stage" = "") := by
  have hc0 : calculate_start_time 0 "4/4" (120:ℚ) 0 "instant" none = Except.ok 0 :=
    calc_instant_zero_bars 0 "4/4" 4 4 120 "instant" none (by decide) (by norm_num)
      (by norm_num) (by norm_num) (Or.inl rfl)
  have heval : processRows "alpha" "stage"
      [⟨"intro", "stage", some "rainbow", some "2", some "Red"⟩] "1" [rowInstantA]
      ⟨2, 0, none, [], []⟩
      = (⟨3, 0, some 120,
          [rowSeqElem "alpha" "stage"
            [⟨"intro", "stage", some "rainbow", some "2", some "Red"⟩] "1" 2 rowInstantA],
          [rowSfElem 2 0 rowInstantA]⟩, none) := by
    rw [processRows_cons_ok "alpha" "stage"
      [⟨"intro", "stage", some "rainbow", some "2", some "Red"⟩] "1" rowInstantA []
      ⟨2, 0, none, [], []⟩ 0 hc0]
    rfl
  exact ⟨heval, claim_C7_step_condition "alpha" "stage"
    [⟨"intro", "stage", some "rainbow", some "2", some "Red"⟩] "1" [rowInstantA]
    ⟨2, 0, none, [], []⟩ _ heval⟩

theorem uniqueFirstAux_subset : ∀ (l seen : List (Option String)) (x : Option String),
    x ∈ uniqueFirstAux l seen → x ∈ l := by
  intro l
  induction l with
  | nil => intro seen x h; simp [uniqueFirstAux] at h
  | cons y ys ih =>
    intro seen x h
    rw [uniqueFirstAux] at h
    by_cases hy : y ∈ seen
    · rw [if_pos hy] at h
      exact List.mem_cons_of_mem y (ih _ x h)
    · rw [if_neg hy] at h
      rcases List.mem_cons.mp h with h | h
      · exact h ▸ List.mem_cons_self y ys
      · exact List.mem_cons_of_mem y (ih _ x h)

/-- Every qualifying category is a non-NA, non-`"None"` value some raw
category cell was read to. -/
theorem qualCats_sound (groups : List GroupRow) :
    ∀ c ∈ qualCats groups, c ≠ "None" ∧ c ≠ ""
      ∧ ∃ g ∈ groups, readCategory g.category = some c := by
  intro c hc
  unfold qualCats catsQual at hc
  obtain ⟨o, ho, hoc⟩ := List.mem_filterMap.mp hc
  match o with
  | none => simp at hoc
  | some c' =>
    by_cases hc' : c' = "None"
    · rw [hc'] at hoc; simp at hoc
    · simp only [hc', if_neg, if_false] at hoc
      have hcc : c' = c := by simpa [hc'] using hoc
      subst hcc
      have hmem := uniqueFirstAux_subset _ [] _ ho
      obtain ⟨g, hg, hread⟩ := List.mem_map.mp hmem
      refine ⟨hc', ?_, g, hg, hread⟩
      intro hce
      subst hce
      unfold readCategory at hread
      by_cases hcell : (g.category = "" ∨ g.category = "None")
      · rw [if_pos hcell] at hread; exact Option.noConfusion hread
      · rw [if_neg hcell] at hread
        exact hcell (Or.inl (Option.some.inj hread))

/-- C8: a category cell that is NA (empty) or the literal `"None"` is skipped
entirely — it yields no Track and no Scene — while all other categories are
processed exactly once each, in first-occurrence order: the Tracks are named
by the uppercased qualifying categories in order, and the Scenes'
`FixtureVal` children are exactly the matching membership rows of those
categories in order. -/
theorem claim_C8_category_skipping (groups : List GroupRow) (rows : List StructRow)
    (values : List ValueItem) (fid : ℤ) (name : String)
    (herr : (create_tracks (some groups) true rows values (some fid) name).error = none) :
    (create_tracks (some groups) true rows values (some fid) name).trackElems.map
        (fun e => attrOf e "Name") = (qualCats groups).map upperStr
    ∧ (scenesOf (create_tracks (some groups) true rows values (some fid)
          name).rootFuncs).map sceneFixtureVals
        = (qualCats groups).map (fixtureValElems groups)
    ∧ readCategory "" = none ∧ readCategory "None" = none
    ∧ ∀ c ∈ qualCats groups, c ≠ "None" ∧ c ≠ ""
        ∧ ∃ g ∈ groups, readCategory g.category = some c := by
  rcases hcats : processCats name groups rows values
      (uniqueFirst (groups.map (fun g => readCategory g.category)))
      ⟨fid + 1, 0, [], []⟩ with ⟨cst, err⟩
  cases err with
  | some er =>
    rw [create_tracks_eq_err groups rows values fid name cst er hcats] at herr
    simp at herr
  | none =>
    obtain ⟨hsc, htr⟩ := processCats_scenes name groups rows values _ _ _ hcats
    rw [create_tracks_eq_ok groups rows values fid name cst hcats]
    refine ⟨?_, ?_, rfl, rfl, qualCats_sound groups⟩
    · simpa [qualCats] using htr
    · simpa [qualCats, scenesOf] using hsc

/-- Witness for C8: a groups table with an NA cell, a `"None"` cell and a
duplicated category yields one Track/Scene per distinct qualifying category. -/
theorem claim_C8_category_skipping_witness :
    (create_tracks (some [⟨1, "stage", 1⟩, ⟨2, "", 2⟩, ⟨3, "None", 1⟩,
        ⟨4, "stage", 3⟩, ⟨5, "laser", 1⟩]) true [] [] (some 0) "alpha").error = none
    ∧ ((create_tracks (some [⟨1, "stage", 1⟩, ⟨2, "", 2⟩, ⟨3, "None", 1⟩,
          ⟨4, "stage", 3⟩, ⟨5, "laser", 1⟩]) true [] [] (some 0) "alpha").trackElems.map
          (fun e => attrOf e "Name")
        = (qualCats [⟨1, "stage", 1⟩, ⟨2, "", 2⟩, ⟨3, "None", 1⟩,
            ⟨4, "stage", 3⟩, ⟨5, "laser", 1⟩]).map upperStr
      ∧ (scenesOf (create_tracks (some [⟨1, "stage", 1⟩, ⟨2, "", 2⟩, ⟨3, "None", 1⟩,
            ⟨4, "stage", 3⟩, ⟨5, "laser", 1⟩]) true [] [] (some 0)
            "alpha").rootFuncs).map sceneFixtureVals
        = (qualCats [⟨1, "stage", 1⟩, ⟨2, "", 2⟩, ⟨3, "None", 1⟩,
            ⟨4, "stage", 3⟩, ⟨5, "laser", 1⟩]).map
            (fixtureValElems [⟨1, "stage", 1⟩, ⟨2, "", 2⟩, ⟨3, "None", 1⟩,
              ⟨4, "stage", 3⟩, ⟨5, "laser", 1⟩])
      ∧ readCategory "" = none ∧ readCategory "None" = none
      ∧ ∀ c ∈ qualCats [⟨1, "stage", 1⟩, ⟨2, "", 2⟩, ⟨3, "None", 1⟩,
            ⟨4, "stage", 3⟩, ⟨5, "laser", 1⟩], c ≠ "None" ∧ c ≠ ""
          ∧ ∃ g ∈ [(⟨1, "stage", 1⟩ : GroupRow), ⟨2, "", 2⟩, ⟨3, "None", 1⟩,
              ⟨4, "stage", 3⟩, ⟨5, "laser", 1⟩], readCategory g.category = some c) :=
  ⟨rfl, claim_C8_category_skipping [⟨1, "stage", 1⟩, ⟨2, "", 2⟩, ⟨3, "None", 1⟩,
    ⟨4, "stage", 3⟩, ⟨5, "laser", 1⟩] [] [] 0 "alpha" rfl⟩

theorem seqShaped_no_fixtureval {e : Elem} (h : SeqShaped e) :
    ∀ c ∈ e.children, c.tag ≠ "FixtureVal" := by
  obtain ⟨i, nm, sid, en, sp, co, h | h⟩ := h
  · subst h
    intro c hc
    simp [create_sequence, speedElem] at hc
    rcases hc with rfl | rfl | rfl | rfl <;> simp
  · subst h
    intro c hc
    simp [create_sequence, create_step, speedElem] at hc
    rcases hc with rfl | rfl | rfl | rfl | rfl <;> simp

theorem create_tracks_no_structure (groups : List GroupRow) (rows : List StructRow)
    (values : List ValueItem) (fid : Option ℤ) (name : String) :
    create_tracks (some groups) false rows values fid name = ⟨[], [], none, none⟩ := by
  rw [create_tracks.eq_def]
  simp

theorem create_tracks_none_id (groups : List GroupRow) (rows : List StructRow)
    (values : List ValueItem) (name : String) :
    create_tracks (some groups) true rows values none name
      = ⟨[], [], none, some "invalid literal for int() with base 10: None"⟩ := by
  rw [create_tracks.eq_def]
  simp

/-- C9: every `FixtureVal` anywhere in the emitted root Functions carries the
externally assigned id of a membership row of the groups table, and its text
is the comma-join of exactly `channel_count` pairs, the pair at position `i`
being `"<i>,0"`. -/
theorem claim_C9_fixtureval_fidelity (groups : List GroupRow) (hs : Bool)
    (rows : List StructRow) (values : List ValueItem) (fid : Option ℤ) (name : String) :
    ∀ e ∈ (create_tracks (some groups) hs rows values fid name).rootFuncs,
      ∀ fv ∈ e.children, fv.tag = "FixtureVal" →
      ∃ g ∈ groups, attrOf fv "ID" = intStr g.id
        ∧ fv.text = String.intercalate ","
            (List.map (fun i : ℕ => intStr i ++ ",0") (List.range g.channels))
        ∧ (List.map (fun i : ℕ => intStr i ++ ",0") (List.range g.channels)).length
            = g.channels := by
  intro e he fv hfv htag
  have hmem : e ∈ (create_tracks (some groups) hs rows values fid name).rootFuncs → 
      (∃ tid cid cat, e = mkScene name tid cid groups cat) ∨ SeqShaped e := by
    intro he'
    cases hs with
    | false =>
      rw [create_tracks_no_structure] at he'
      simp at he'
    | true =>
      cases fid with
      | none =>
        rw [create_tracks_none_id] at he'
        simp at he'
      | some n =>
        rcases hcats : processCats name groups rows values
            (uniqueFirst (groups.map (fun g => readCategory g.category)))
            ⟨n + 1, 0, [], []⟩ with ⟨cst, err⟩
        have hroot : (create_tracks (some groups) true rows values (some n)
            name).rootFuncs = cst.rootFuncs := by
          cases err with
          | some er => rw [create_tracks_eq_err groups rows values n name cst er hcats]
          | none => rw [create_tracks_eq_ok groups rows values n name cst hcats]
        rw [hroot] at he'
        have := processCats_mem name groups rows values _ _ e (by rw [hcats]; exact he')
        simpa using this
  rcases hmem he with ⟨tid, cid, cat, rfl⟩ | hseq
  · have hch : fv ∈ ([speedElem, ⟨"ChannelGroupsVal", [], "0,0", []⟩] : List Elem)
        ++ fixtureValElems groups cat := hfv
    rcases List.mem_append.mp hch with hfv2 | hfv2
    · exfalso
      rcases List.mem_cons.mp hfv2 with rfl | hfv3
      · exact absurd htag (by decide)
      · rcases List.mem_cons.mp hfv3 with rfl | hfv4
        · exact absurd htag (by decide)
        · simp at hfv4
    · unfold fixtureValElems at hfv2
      obtain ⟨g, hg, rfl⟩ := List.mem_map.mp hfv2
      refine ⟨g, List.mem_of_mem_filter hg, rfl, ?_, ?_⟩
      · rfl
      · rw [List.length_map, List.length_range]
  · exact absurd htag (seqShaped_no_fixtureval hseq fv hfv)

/-- Witness for C9 on a one-membership groups table: the single scene's
`FixtureVal` carries id `7` and the two-channel zero vector `"0,0,1,0"`. -/
theorem claim_C9_fixtureval_fidelity_witness :
    mkScene "alpha" 0 1 [⟨7, "stage", 2⟩] "stage"
        ∈ (create_tracks (some [⟨7, "stage", 2⟩]) true [] [] (some 0) "alpha").rootFuncs
    ∧ mkFixtureVal ⟨7, "stage", 2⟩
        ∈ (mkScene "alpha" 0 1 [⟨7, "stage", 2⟩] "stage").children
    ∧ (mkFixtureVal ⟨7, "stage", 2⟩).tag = "FixtureVal"
    ∧ ∃ g ∈ [(⟨7, "stage", 2⟩ : GroupRow)],
        attrOf (mkFixtureVal ⟨7, "stage", 2⟩) "ID" = intStr g.id
        ∧ (mkFixtureVal ⟨7, "stage", 2⟩).text = String.intercalate ","
            (List.map (fun i : ℕ => intStr i ++ ",0") (List.range g.channels))
        ∧ (List.map (fun i : ℕ => intStr i ++ ",0") (List.range g.channels)).length
            = g.channels := by
  have hroot : (create_tracks (some [⟨7, "stage", 2⟩]) true [] [] (some 0)
      "alpha").rootFuncs = [mkScene "alpha" 0 1 [⟨7, "stage", 2⟩] "stage"] := rfl
  have h1 : mkScene "alpha" 0 1 [⟨7, "stage", 2⟩] "stage"
      ∈ (create_tracks (some [⟨7, "stage", 2⟩]) true [] [] (some 0) "alpha").rootFuncs := by
    rw [hroot]
    exact List.mem_singleton_self _
  have h2 : mkFixtureVal ⟨7, "stage", 2⟩
      ∈ (mkScene "alpha" 0 1 [⟨7, "stage", 2⟩] "stage").children := by
    show mkFixtureVal ⟨7, "stage", 2⟩
      ∈ [speedElem, ⟨"ChannelGroupsVal", [], "0,0", []⟩, mkFixtureVal ⟨7, "stage", 2⟩]
    exact List.mem_cons_of_mem _ (List.mem_cons_of_mem _ (List.mem_singleton_self _))
  exact ⟨h1, h2, rfl,
    claim_C9_fixtureval_fidelity [⟨7, "stage", 2⟩] true [] [] (some 0) "alpha"
      _ h1 _ h2 rfl⟩

/-- C4, counterexample to the claim as written: when no previous bpm is
available (as on the first row of every category), a transition outside
`{instant, gradual}` does not raise — the instant branch runs instead. -/
theorem claim_C4_unknown_transition_counterexample :
    calculate_start_time 0 "4/4" 120 0 "bogus" none = Except.ok 0
    ∧ "bogus" ≠ "instant" ∧ "bogus" ≠ "gradual" :=
  ⟨calc_instant_zero_bars 0 "4/4" 4 4 120 "bogus" none (by decide) (by norm_num)
    (by norm_num) (by norm_num) (Or.inr rfl), by decide, by decide⟩

/-- C4 as amended: a transition outside `{instant, gradual}` raises the
unknown-transition error only when a previous bpm is present (any transition
string takes the instant branch when it is absent); the raised error aborts
only the offending show — in the concrete batch, show `alpha` stops at its
bad row and is reported, while show `beta` still compiles fully, reusing
`alpha`'s id seed. -/
theorem claim_C4_unknown_transition (previous_time : ℤ) (sig : String) (n d : ℤ)
    (bpm : ℚ) (num_bars : ℕ) (transition : String) (p : ℚ)
    (hsig : parseSignature sig = some (n, d)) (hd : d ≠ 0)
    (hti : transition ≠ "instant") (htg : transition ≠ "gradual") :
    calculate_start_time previous_time sig bpm num_bars transition (some p)
        = Except.error ("Unknown transition type: " ++ transition)
    ∧ (create_shows (some c4groups) [c4show1, c4show2]).errors
        = ["Unknown transition type: fade"]
    ∧ functionIds (create_shows (some c4groups) [c4show1, c4show2]).root
        = ["0", "1", "2", "3", "0", "1", "2"]
    ∧ (create_shows (some c4groups) [c4show1, c4show2]).show_id = some 3 := by
  have hc0 : calculate_start_time 0 "4/4" (120:ℚ) 0 "instant" none = Except.ok 0 :=
    calc_instant_zero_bars 0 "4/4" 4 4 120 "instant" none (by decide) (by norm_num)
      (by norm_num) (by norm_num) (Or.inl rfl)
  have hcbad : calculate_start_time 0 "4/4" (150:ℚ) 2 "fade" (some 120)
      = Except.error "Unknown transition type: fade" :=
    calc_unknown_transition 0 "4/4" 4 4 150 2 "fade" 120 (by decide) (by norm_num)
      (by decide) (by decide)
  have hrows1 : processRows "alpha" "stage" [] (intStr 1)
      [rowInstantA, rowBadTransition] ⟨2, 0, none, [], []⟩
      = (⟨3, 0, some 120,
          [rowSeqElem "alpha" "stage" [] (intStr 1) 2 rowInstantA,
           rowSeqElem "alpha" "stage" [] (intStr 1) 3 rowBadTransition],
          [rowSfElem 2 0 rowInstantA, rowSfElem 3 0 rowBadTransition]⟩,
         some "Unknown transition type: fade") := by
    rw [processRows_cons_ok "alpha" "stage" [] (intStr 1) rowInstantA [rowBadTransition]
      ⟨2, 0, none, [], []⟩ 0 hc0]
    rw [processRows_cons_error "alpha" "stage" [] (intStr 1) rowBadTransition [] _
      "Unknown transition type: fade" hcbad]
    rfl
  have huniq : uniqueFirst (c4groups.map (fun g => readCategory g.category))
      = [some "stage"] := rfl
  have hcats1 : processCats "alpha" c4groups [rowInstantA, rowBadTransition] []
      (uniqueFirst (c4groups.map (fun g => readCategory g.category))) ⟨0 + 1, 0, [], []⟩
      = (⟨3, 0,
          [trackElem "stage" 0 1 [rowSfElem 2 0 rowInstantA, rowSfElem 3 0 rowBadTransition]],
          [mkScene "alpha" 0 1 c4groups "stage",
           rowSeqElem "alpha" "stage" [] (intStr 1) 2 rowInstantA,
           rowSeqElem "alpha" "stage" [] (intStr 1) 3 rowBadTransition]⟩,
         some "Unknown transition type: fade") := by
    rw [huniq]
    rw [processCats_cons_keep_err "alpha" c4groups [rowInstantA, rowBadTransition] []
      "stage" [] ⟨0 + 1, 0, [], []⟩ _ "Unknown transition type: fade" (by decide)
      (by exact hrows1)]
    rfl
  have htr1 : create_tracks (some c4groups) true [rowInstantA, rowBadTransition] []
      (some 0) "alpha"
      = ⟨[trackElem "stage" 0 1 [rowSfElem 2 0 rowInstantA, rowSfElem 3 0 rowBadTransition]],
         [mkScene "alpha" 0 1 c4groups "stage",
          rowSeqElem "alpha" "stage" [] (intStr 1) 2 rowInstantA,
          rowSeqElem "alpha" "stage" [] (intStr 1) 3 rowBadTransition],
         none, some "Unknown transition type: fade"⟩ :=
    create_tracks_eq_err c4groups [rowInstantA, rowBadTransition] [] 0 "alpha" _
      "Unknown transition type: fade" hcats1
  have hrows2 : processRows "beta" "stage" [] (intStr 1) [rowInstantA]
      ⟨2, 0, none, [], []⟩
      = (⟨3, 0, some 120,
          [rowSeqElem "beta" "stage" [] (intStr 1) 2 rowInstantA],
          [rowSfElem 2 0 rowInstantA]⟩, none) := by
    rw [processRows_cons_ok "beta" "stage" [] (intStr 1) rowInstantA []
      ⟨2, 0, none, [], []⟩ 0 hc0]
    rfl
  have hcats2 : processCats "beta" c4groups [rowInstantA] []
      (uniqueFirst (c4groups.map (fun g => readCategory g.category))) ⟨0 + 1, 0, [], []⟩
      = (⟨3, 1, [trackElem "stage" 0 1 [rowSfElem 2 0 rowInstantA]],
          [mkScene "beta" 0 1 c4groups "stage",
           rowSeqElem "beta" "stage" [] (intStr 1) 2 rowInstantA]⟩, none) := by
    rw [huniq]
    rw [processCats_cons_keep_ok "beta" c4groups [rowInstantA] [] "stage" []
      ⟨0 + 1, 0, [], []⟩ _ (by decide) (by exact hrows2)]
    rfl
  have htr2 : create_tracks (some c4groups) true [rowInstantA] [] (some 0) "beta"
      = ⟨[trackElem "stage" 0 1 [rowSfElem 2 0 rowInstantA]],
         [mkScene "beta" 0 1 c4groups "stage",
          rowSeqElem "beta" "stage" [] (intStr 1) 2 rowInstantA],
         some 3, none⟩ :=
    create_tracks_eq_ok c4groups [rowInstantA] [] 0 "beta" _ hcats2
  have hstep1 : create_shows_step (some c4groups) ⟨[], some 0, [], []⟩ c4show1
      = ⟨[⟨"Function", [("ID", "0"), ("Type", "Show"), ("Name", "alpha")], "",
           [timeDivision c4show1,
            trackElem "stage" 0 1 [rowSfElem 2 0 rowInstantA, rowSfElem 3 0 rowBadTransition]]⟩,
          mkScene "alpha" 0 1 c4groups "stage",
          rowSeqElem "alpha" "stage" [] (intStr 1) 2 rowInstantA,
          rowSeqElem "alpha" "stage" [] (intStr 1) 3 rowBadTransition],
         some 0, ["Unknown transition type: fade"], []⟩ := by
    rw [create_shows_step, if_pos (⟨rfl, rfl, rfl⟩ :
      (c4show1.hasSetup ∧ c4show1.hasStructure ∧ c4show1.hasValues : Prop))]
    simp only [show (⟨[], some 0, [], []⟩ : ShowsState).show_id = some 0 from rfl,
      show c4show1.hasStructure = true from rfl,
      show c4show1.rows = [rowInstantA, rowBadTransition] from rfl,
      show c4show1.values = ([] : List ValueItem) from rfl,
      show c4show1.name = "alpha" from rfl, htr1]
    rfl
  have hstep2 : create_shows_step (some c4groups)
      ⟨[⟨"Function", [("ID", "0"), ("Type", "Show"), ("Name", "alpha")], "",
         [timeDivision c4show1,
          trackElem "stage" 0 1 [rowSfElem 2 0 rowInstantA, rowSfElem 3 0 rowBadTransition]]⟩,
        mkScene "alpha" 0 1 c4groups "stage",
        rowSeqElem "alpha" "stage" [] (intStr 1) 2 rowInstantA,
        rowSeqElem "alpha" "stage" [] (intStr 1) 3 rowBadTransition],
       some 0, ["Unknown transition type: fade"], []⟩ c4show2
      = ⟨[⟨"Function", [("ID", "0"), ("Type", "Show"), ("Name", "alpha")], "",
           [timeDivision c4show1,
            trackElem "stage" 0 1 [rowSfElem 2 0 rowInstantA, rowSfElem 3 0 rowBadTransition]]⟩,
          mkScene "alpha" 0 1 c4groups "stage",
          rowSeqElem "alpha" "stage" [] (intStr 1) 2 rowInstantA,
          rowSeqElem "alpha" "stage" [] (intStr 1) 3 rowBadTransition,
          ⟨"Function", [("ID", "0"), ("Type", "Show"), ("Name", "beta")], "",
           [timeDivision c4show2, trackElem "stage" 0 1 [rowSfElem 2 0 rowInstantA]]⟩,
          mkScene "beta" 0 1 c4groups "stage",
          rowSeqElem "beta" "stage" [] (intStr 1) 2 rowInstantA],
         some 3, ["Unknown transition type: fade"], []⟩ := by
    rw [create_shows_step, if_pos (⟨rfl, rfl, rfl⟩ :
      (c4show2.hasSetup ∧ c4show2.hasStructure ∧ c4show2.hasValues : Prop))]
    simp only [show c4show2.hasStructure = true from rfl,
      show c4show2.rows = [rowInstantA] from rfl,
      show c4show2.values = ([] : List ValueItem) from rfl,
      show c4show2.name = "beta" from rfl, htr2]
    rfl
  have hfinal : create_shows (some c4groups) [c4show1, c4show2]
      = ⟨[⟨"Function", [("ID", "0"), ("Type", "Show"), ("Name", "alpha")], "",
           [timeDivision c4show1,
            trackElem "stage" 0 1 [rowSfElem 2 0 rowInstantA, rowSfElem 3 0 rowBadTransition]]⟩,
          mkScene "alpha" 0 1 c4groups "stage",
          rowSeqElem "alpha" "stage" [] (intStr 1) 2 rowInstantA,
          rowSeqElem "alpha" "stage" [] (intStr 1) 3 rowBadTransition,
          ⟨"Function", [("ID", "0"), ("Type", "Show"), ("Name", "beta")], "",
           [timeDivision c4show2, trackElem "stage" 0 1 [rowSfElem 2 0 rowInstantA]]⟩,
          mkScene "beta" 0 1 c4groups "stage",
          rowSeqElem "beta" "stage" [] (intStr 1) 2 rowInstantA],
         some 3, ["Unknown transition type: fade"], []⟩ := by
    rw [show create_shows (some c4groups) [c4show1, c4show2]
        = create_shows_aux (some c4groups) [c4show1, c4show2] ⟨[], some 0, [], []⟩
      from rfl]
    rw [create_shows_aux_cons, hstep1, create_shows_aux_cons, hstep2,
      create_shows_aux_nil]
  refine ⟨calc_unknown_transition previous_time sig n d bpm num_bars transition p
    hsig hd hti htg, ?_, ?_, ?_⟩
  · rw [hfinal]
  · rw [hfinal]
    rfl
  · rw [hfinal]

/-- Witness for C4 (amended): the bad transition `"fade"` with a previous
bpm present does raise. -/
theorem claim_C4_unknown_transition_witness :
    parseSignature "4/4" = some (4, 4) ∧ (4 : ℤ) ≠ 0
    ∧ ("fade" : String) ≠ "instant" ∧ ("fade" : String) ≠ "gradual"
    ∧ calculate_start_time 0 "4/4" 150 2 "fade" (some 120)
        = Except.error ("Unknown transition type: " ++ "fade") :=
  ⟨by decide, by norm_num, by decide, by decide,
    (claim_C4_unknown_transition 0 "4/4" 4 4 150 2 "fade" 120 (by decide) (by norm_num)
      (by decide) (by decide)).1⟩

/-- C10, counterexample: with the groups file missing, the run reports no
error at all, and the second show is still emitted — with id attribute
`"None"` — rather than failing. -/
theorem claim_C10_missing_groups_counterexample :
    (create_shows none [c10show1, c10show2]).errors = []
    ∧ (create_shows none [c10show1, c10show2]).skipped = []
    ∧ functionIds (create_shows none [c10show1, c10show2]).root = ["0", "None"]
    ∧ (create_shows none [c10show1, c10show2]).show_id = none :=
  ⟨rfl, rfl, rfl, rfl⟩

/-- C10 as amended: when `setup/groups.csv` is missing, `create_tracks`
returns `None` (it never raises), and `create_shows` then seeds the next show
with `None`; subsequent shows do not fail — every show with complete files is
still emitted, the first with id `"0"` and all later ones with the literal id
attribute `"None"`, each without any Track children, and no error is
reported for any of them. -/
theorem claim_C10_missing_groups (sh : ShowDir) (rest : List ShowDir)
    (hfiles : ∀ s ∈ sh :: rest, (s.hasSetup ∧ s.hasStructure ∧ s.hasValues : Prop)) :
    (∀ (hs : Bool) (rows : List StructRow) (values : List ValueItem) (fid : Option ℤ)
        (name : String), create_tracks none hs rows values fid name = ⟨[], [], none, none⟩)
    ∧ (create_shows none (sh :: rest)).errors = []
    ∧ (create_shows none (sh :: rest)).skipped = []
    ∧ (create_shows none (sh :: rest)).show_id = none
    ∧ functionIds (create_shows none (sh :: rest)).root
        = "0" :: rest.map (fun _ => "None")
    ∧ ∀ e ∈ (create_shows none (sh :: rest)).root, ∀ c ∈ e.children,
        c.tag = "TimeDivision" := by
  have hfinal : create_shows none (sh :: rest)
      = ⟨[noTracksFn (some 0) sh] ++ rest.map (noTracksFn none), none, [], []⟩ := by
    rw [show create_shows none (sh :: rest)
        = create_shows_aux none (sh :: rest) ⟨[], some 0, [], []⟩ from rfl]
    rw [create_shows_aux_cons,
      create_shows_step_no_groups ⟨[], some 0, [], []⟩ sh
        (hfiles sh (List.mem_cons_self sh rest))]
    rw [create_shows_aux_no_groups rest _
      (fun s hs => hfiles s (List.mem_cons_of_mem sh hs)) rfl]
    rfl
  refine ⟨fun hs rows values fid name => rfl, ?_, ?_, ?_, ?_, ?_⟩
  · rw [hfinal]
  · rw [hfinal]
  · rw [hfinal]
  · rw [hfinal]
    show functionIds ([noTracksFn (some 0) sh] ++ rest.map (noTracksFn none))
      = "0" :: rest.map (fun _ => "None")
    rw [functionIds_append, functionIds_noTracksFn]
    rfl
  · rw [hfinal]
    intro e he c hc
    simp only [List.mem_append, List.mem_singleton] at he
    rcases he with rfl | he
    · simp only [noTracksFn] at hc
      rcases List.mem_singleton.mp hc with rfl
      rfl
    · obtain ⟨s, hs, rfl⟩ := List.mem_map.mp he
      simp only [noTracksFn] at hc
      rcases List.mem_singleton.mp hc with rfl
      rfl

/-- Witness for C10 (amended) on the concrete two-show batch. -/
theorem claim_C10_missing_groups_witness :
    (∀ s ∈ [c10show1, c10show2], (s.hasSetup ∧ s.hasStructure ∧ s.hasValues : Prop))
    ∧ ((∀ (hs : Bool) (rows : List StructRow) (values : List ValueItem) (fid : Option ℤ)
          (name : String),
          create_tracks none hs rows values fid name = ⟨[], [], none, none⟩)
      ∧ (create_shows none (c10show1 :: [c10show2])).errors = []
      ∧ (create_shows none (c10show1 :: [c10show2])).skipped = []
      ∧ (create_shows none (c10show1 :: [c10show2])).show_id = none
      ∧ functionIds (create_shows none (c10show1 :: [c10show2])).root
          = "0" :: [c10show2].map (fun _ => "None")
      ∧ ∀ e ∈ (create_shows none (c10show1 :: [c10show2])).root, ∀ c ∈ e.children,
          c.tag = "TimeDivision") := by
  have hfiles : ∀ s ∈ [c10show1, c10show2],
      (s.hasSetup ∧ s.hasStructure ∧ s.hasValues : Prop) := by
    intro s hs
    rcases List.mem_cons.mp hs with rfl | hs
    · exact ⟨rfl, rfl, rfl⟩
    · rcases List.mem_singleton.mp hs with rfl
      exact ⟨rfl, rfl, rfl⟩
  exact ⟨hfiles, claim_C10_missing_groups c10show1 [c10show2] hfiles⟩

end QLCAutoShow
